import Mathlib

/-
  Verification development for the CaseBuddy-DiscoveryLens background
  processing core.  The definitions below are shallow embeddings of the
  TypeScript sources:

  - src/lib/cache.ts       (LRUCache, AnalysisCache, key construction)
  - src/lib/rateLimiter.ts (RateLimiter token buckets)
  - src/lib/mediaTranscoder.ts (transcodeToMonoWav and helpers)
  - src/lib/worker.ts      (JobWorker claim / retry semantics)

  Machine numbers of the source are modelled with Nat (sizes, timestamps)
  and with the rationals (token amounts, which are JS floats holding exact
  fractional refills in the scenarios below).  Promises that can reject are
  modelled with Except; the external persistence adapter and the external
  subprocess are modelled by explicit outcome values fed to the embedded
  functions.
-/

set_option maxHeartbeats 1000000

/- ---------------------------------------------------------------------
   Shared string constants (string literals of the source, bound to names
   so that they can be passed as ordinary arguments).
--------------------------------------------------------------------- -/

def colonSep : String := ":"

def commaSep : String := ","

def emptyStr : String := ""

def dquote : String := "\""

def lbraceStr : String := "\x7b"

def rbraceStr : String := "\x7d"

def nullStr : String := "null"

def undefinedStr : String := "undefined"

/- ---------------------------------------------------------------------
   Key construction: LRUCache.createKey (src/lib/cache.ts lines 67-70) and
   AnalysisCache.createAnalysisKey (lines 319-325).

   createKey normalizes each part to a string, joins the parts with ":" and
   hashes the joined string with sha256.  The hash itself is an external
   library call (crypto.createHash); it is modelled as an arbitrary function
   parameter `hash`, which is sound for every claim below because they only
   depend on the hash being a function of the joined string.
--------------------------------------------------------------------- -/

inductive KeyPart where
  | str (s : String)
  | num (n : Int)
  | bool (b : Bool)
  | null
  | undef
  deriving DecidableEq, Repr

def normalizePart : KeyPart → String
  | KeyPart.str s => s
  | KeyPart.num n => toString n
  | KeyPart.bool b => toString b
  | KeyPart.null => nullStr
  | KeyPart.undef => undefinedStr

def joinColon (parts : List String) : String :=
  String.intercalate colonSep parts

def createKey (hash : String → String) (parts : List KeyPart) : String :=
  hash (joinColon (parts.map normalizePart))

/- A minimal model of the JavaScript values that can appear in the
   `options` record handed to createAnalysisKey.  `undef` models a property
   whose value is `undefined`: JSON.stringify drops such properties. -/
inductive JsVal where
  | undef
  | num (n : Int)
  | str (s : String)
  deriving DecidableEq, Repr

def stringifyPair : String × JsVal → Option String
  | (_, JsVal.undef) => none
  | (k, JsVal.num n) => some (dquote ++ k ++ dquote ++ colonSep ++ toString n)
  | (k, JsVal.str s) => some (dquote ++ k ++ dquote ++ colonSep ++ dquote ++ s ++ dquote)

/- JSON.stringify on a record, restricted to the value shapes above. -/
def jsonStringifyRec (o : List (String × JsVal)) : String :=
  lbraceStr ++ String.intercalate commaSep (o.filterMap stringifyPair) ++ rbraceStr

inductive AnalysisOp where
  | analyze
  | transcribe
  | chat
  deriving DecidableEq, Repr

def analysisOpName : AnalysisOp → String
  | AnalysisOp.analyze => "analyze"
  | AnalysisOp.transcribe => "transcribe"
  | AnalysisOp.chat => "chat"

/- AnalysisCache.createAnalysisKey: LRUCache.createKey(operation,
   contentHash, JSON.stringify(options ?? {})). -/
def createAnalysisKey (hash : String → String) (operation : AnalysisOp)
    (contentHash : String) (options : Option (List (String × JsVal))) : String :=
  createKey hash
    [KeyPart.str (analysisOpName operation), KeyPart.str contentHash,
     KeyPart.str (jsonStringifyRec (options.getD []))]

/- ---------------------------------------------------------------------
   LRUCache (src/lib/cache.ts).  The JS Map is modelled as an association
   list in insertion order, which is exactly the iteration order JS Maps
   guarantee; `delete` + `set` therefore moves an entry to the back, and
   the first entry is the one `this.cache.keys().next().value` yields.
--------------------------------------------------------------------- -/

structure CacheEntry (T : Type) where
  key : String
  value : T
  createdAt : Nat
  expiresAt : Nat
  accessCount : Nat
  lastAccessedAt : Nat
  deriving DecidableEq, Repr

structure CacheState (T : Type) where
  entries : List (String × CacheEntry T)
  maxSize : Nat
  defaultTtlMs : Nat
  deriving DecidableEq, Repr

def mapGet {T : Type} (es : List (String × CacheEntry T)) (k : String) :
    Option (CacheEntry T) :=
  match es.find? (fun p => p.1 == k) with
  | some p => some p.2
  | none => none

def mapHas {T : Type} (es : List (String × CacheEntry T)) (k : String) : Bool :=
  (mapGet es k).isSome

def mapDelete {T : Type} (es : List (String × CacheEntry T)) (k : String) :
    List (String × CacheEntry T) :=
  es.filter (fun p => p.1 != k)

def mapSet {T : Type} (es : List (String × CacheEntry T)) (k : String)
    (e : CacheEntry T) : List (String × CacheEntry T) :=
  if mapHas es k then es.map (fun p => if p.1 == k then (k, e) else p)
  else es ++ [(k, e)]

/- LRUCache.evictLRU (lines 189-195): reads the first key of the Map and
   deletes it, but only under `if (oldestKey)`, a JS truthiness test that is
   false both for undefined (empty map) and for the empty string. -/
def evictLRU {T : Type} (es : List (String × CacheEntry T)) :
    List (String × CacheEntry T) :=
  match es with
  | [] => es
  | (k, _) :: _ => if k == emptyStr then es else mapDelete es k

/- LRUCache.set, in-memory part (lines 109-128). -/
def cacheSet {T : Type} (st : CacheState T) (k : String) (v : T)
    (ttlMs : Option Nat) (now : Nat) : CacheState T :=
  let es1 :=
    if mapHas st.entries k then mapDelete st.entries k
    else if st.maxSize ≤ st.entries.length then evictLRU st.entries
    else st.entries
  let e : CacheEntry T :=
    { key := k, value := v, createdAt := now,
      expiresAt := now + ttlMs.getD st.defaultTtlMs,
      accessCount := 0, lastAccessedAt := now }
  { st with entries := mapSet es1 k e }

/- The persistence adapter, modelled by the resolution each of its promises
   would have: Except.error is a rejected promise. -/
structure AdapterModel (T : Type) where
  getResult : String → Except String (Option T)
  setResult : String → T → Nat → Except String Unit
  deleteResult : String → Except String Unit
  clearResult : Except String Unit

/- LRUCache.get (lines 76-107).  On an absent key the adapter, when
   configured, is awaited with no try/catch, so its rejection propagates to
   the caller; an adapter hit is backfilled via this.set.  A present but
   expired entry is deleted and the method returns null without touching
   the adapter.  A live hit bumps the bookkeeping fields and re-inserts the
   entry to promote recency. -/
def cacheGet {T : Type} (adapter : Option (AdapterModel T)) (st : CacheState T)
    (k : String) (now : Nat) : Except String (Option T × CacheState T) :=
  match mapGet st.entries k with
  | none =>
    match adapter with
    | some a =>
      match a.getResult k with
      | Except.error e => Except.error e
      | Except.ok (some v) => Except.ok (some v, cacheSet st k v none now)
      | Except.ok none => Except.ok (none, st)
    | none => Except.ok (none, st)
  | some e =>
    if e.expiresAt < now then
      Except.ok (none, { st with entries := mapDelete st.entries k })
    else
      let e2 := { e with accessCount := e.accessCount + 1, lastAccessedAt := now }
      Except.ok (some e.value, { st with entries := mapSet (mapDelete st.entries k) k e2 })

/- LRUCache.set with a configured adapter (lines 130-143): the write promise
   is fired and never awaited, so whether it resolves or rejects the caller
   gets the same in-memory state. -/
def cacheSetWithAdapter {T : Type} (adapter : Option (AdapterModel T))
    (st : CacheState T) (k : String) (v : T) (ttlMs : Option Nat) (now : Nat) :
    CacheState T :=
  let st2 := cacheSet st k v ttlMs now
  match adapter with
  | some a =>
    match a.setResult k v (ttlMs.getD st.defaultTtlMs) with
    | Except.error _ => st2
    | Except.ok _ => st2
  | none => st2

/- LRUCache.delete (lines 158-164): adapter delete is fired with
   .catch(() => ..) so a rejection is swallowed. -/
def cacheDelete {T : Type} (adapter : Option (AdapterModel T))
    (st : CacheState T) (k : String) : Bool × CacheState T :=
  let deleted := mapHas st.entries k
  let st2 := { st with entries := mapDelete st.entries k }
  match adapter, deleted with
  | some a, true =>
    match a.deleteResult k with
    | Except.error _ => (deleted, st2)
    | Except.ok _ => (deleted, st2)
  | _, _ => (deleted, st2)

/- LRUCache.clear (lines 166-171): adapter clear is fired with
   .catch(() => ..) so a rejection is swallowed. -/
def cacheClear {T : Type} (adapter : Option (AdapterModel T))
    (st : CacheState T) : CacheState T :=
  let st2 := { st with entries := [] }
  match adapter with
  | some a =>
    match a.clearResult with
    | Except.error _ => st2
    | Except.ok _ => st2
  | none => st2

/- Sequences of in-memory cache operations, each stamped with the wall
   clock at which it runs (no adapter configured). -/
inductive CacheOp (T : Type) where
  | setOp (k : String) (v : T)
  | getOp (k : String)
  deriving DecidableEq, Repr

def applyCacheOp {T : Type} (st : CacheState T) : Nat × CacheOp T → CacheState T
  | (now, CacheOp.setOp k v) => cacheSet st k v none now
  | (now, CacheOp.getOp k) =>
    match cacheGet none st k now with
    | Except.ok (_, st2) => st2
    | Except.error _ => st

def runCacheOps {T : Type} (st : CacheState T) (ops : List (Nat × CacheOp T)) :
    CacheState T :=
  ops.foldl applyCacheOp st

/- ---------------------------------------------------------------------
   MediaTranscoder (src/lib/mediaTranscoder.ts).  Buffers are modelled as
   byte lists; the external ffmpeg subprocess is modelled by a ProcOutcome
   value describing the events it would emit.
--------------------------------------------------------------------- -/

def maxMediaBytes : Nat := 25 * 1024 * 1024

def maxAudioBytes : Nat := 10 * 1024 * 1024

def inputMediaLabel : String := "Input media"

def inputAudioLabel : String := "Input audio"

def downsampledLabel : String := "Downsampled audio"

def exceedsMsg : String := " exceeds maximum size of "

def mbSuffix : String := "MB"

def audioStart : String := "audio/"

def videoStart : String := "video/"

def wavMime : String := "audio/wav"

def enoentCode : String := "ENOENT"

def invalidTypeMsg : String := "Invalid file type. Only audio and video files are supported."

def ffmpegRequiredMsg : String := "FFmpeg is required to extract audio from video files."

def ffmpegExitMsg : String := "ffmpeg exited with code "

/- Math.round(limit / (1024 * 1024)) on a non-negative float equals
   floor(limit / 2^20 + 1/2), i.e. floor((limit + 2^19) / 2^20). -/
def roundDivMB (limit : Nat) : Nat := (limit + 524288) / 1048576

/- validateMediaSize (lines 20-24); a throw is modelled as Except.error. -/
def validateMediaSize (bytes limit : Nat) (label : String) : Except String Unit :=
  if limit < bytes then
    Except.error (label ++ exceedsMsg ++ toString (roundDivMB limit) ++ mbSuffix)
  else Except.ok ()

/- The JS string.startsWith(p) test: the first p.length characters of s
   are exactly p. -/
def strStartsWith (s p : String) : Bool :=
  decide (p.data = s.data.take p.data.length)

structure MediaBufferResult where
  audioBuffer : List Nat
  audioMimeType : String
  deriving DecidableEq, Repr

/- What the spawned subprocess does: either it fails to spawn (the error
   event fires with an error code, ENOENT meaning the executable is
   missing), or it runs, emitting the given stdout chunks followed by a
   close event with the given exit code, with stderrText on stderr. -/
inductive ProcOutcome where
  | spawnErr (code : String) (msg : String)
  | runOk (chunks : List (List Nat)) (exitCode : Int) (stderrText : String)
  deriving DecidableEq, Repr

instance instDecEqExcept {ε α : Type} [DecidableEq ε] [DecidableEq α] :
    DecidableEq (Except ε α) := fun a b =>
  match a, b with
  | Except.error e, Except.error f =>
    if h : e = f then Decidable.isTrue (congrArg Except.error h)
    else Decidable.isFalse (fun hh => h (Except.error.inj hh))
  | Except.ok x, Except.ok y =>
    if h : x = y then Decidable.isTrue (congrArg Except.ok h)
    else Decidable.isFalse (fun hh => h (Except.ok.inj hh))
  | Except.error _, Except.ok _ => Decidable.isFalse (fun hh => Except.noConfusion hh)
  | Except.ok _, Except.error _ => Decidable.isFalse (fun hh => Except.noConfusion hh)

structure TranscodeRun where
  spawned : Bool
  killed : Bool
  result : Except String MediaBufferResult
  deriving DecidableEq, Repr

def exceptIsError {ε α : Type} : Except ε α → Bool
  | Except.error _ => true
  | Except.ok _ => false

/- fallbackToInput (lines 76-83): on a missing executable, a video input is
   rejected outright; an audio input is re-validated against sizeLimit (a
   throw here never resolves the promise with the buffer) and otherwise the
   original buffer and mime type are returned unchanged. -/
def fallbackToInput (inputBuffer : List Nat) (mimeType : String)
    (sizeLimit : Nat) : Except String MediaBufferResult :=
  if strStartsWith mimeType audioStart then
    match validateMediaSize inputBuffer.length sizeLimit inputAudioLabel with
    | Except.error e => Except.error e
    | Except.ok _ => Except.ok { audioBuffer := inputBuffer, audioMimeType := mimeType }
  else Except.error ffmpegRequiredMsg

/- The stdout data handler (lines 88-98): each chunk is accumulated and the
   running size re-validated; the first overflow kills the process and
   rejects. -/
def pumpChunks (sizeLimit : Nat) (acc : List (List Nat)) (size : Nat) :
    List (List Nat) → Except String (List (List Nat) × Nat)
  | [] => Except.ok (acc, size)
  | c :: rest =>
    let size2 := size + c.length
    match validateMediaSize size2 sizeLimit downsampledLabel with
    | Except.error e => Except.error e
    | Except.ok _ => pumpChunks sizeLimit (acc ++ [c]) size2 rest

/- The close handler (lines 113-124): non-zero exit surfaces the captured
   stderr (or a default message), trimmed; otherwise the concatenated
   stdout is validated once more and returned as mono WAV. -/
def closeOutcome (sizeLimit : Nat) (acc : List (List Nat)) (exitCode : Int)
    (stderrText : String) : Except String MediaBufferResult :=
  if exitCode ≠ 0 then
    Except.error
      ((if stderrText = emptyStr then ffmpegExitMsg ++ toString exitCode
        else stderrText).trim)
  else
    let audioBuffer := acc.flatten
    match validateMediaSize audioBuffer.length sizeLimit downsampledLabel with
    | Except.error e => Except.error e
    | Except.ok _ => Except.ok { audioBuffer := audioBuffer, audioMimeType := wavMime }

/- transcodeToMonoWav (lines 54-129). -/
def transcodeToMonoWav (inputBuffer : List Nat) (mimeType : String)
    (sizeLimit : Nat) (proc : ProcOutcome) : TranscodeRun :=
  match validateMediaSize inputBuffer.length maxMediaBytes inputMediaLabel with
  | Except.error e => { spawned := false, killed := false, result := Except.error e }
  | Except.ok _ =>
    if !strStartsWith mimeType audioStart && !strStartsWith mimeType videoStart then
      { spawned := false, killed := false, result := Except.error invalidTypeMsg }
    else
      match proc with
      | ProcOutcome.spawnErr code msg =>
        if code = enoentCode then
          { spawned := true, killed := false,
            result := fallbackToInput inputBuffer mimeType sizeLimit }
        else
          { spawned := true, killed := false, result := Except.error msg }
      | ProcOutcome.runOk chunks exitCode stderrText =>
        match pumpChunks sizeLimit [] 0 chunks with
        | Except.error e => { spawned := true, killed := true, result := Except.error e }
        | Except.ok (acc, _) =>
          { spawned := true, killed := false,
            result := closeOutcome sizeLimit acc exitCode stderrText }

/- ---------------------------------------------------------------------
   RateLimiter (src/lib/rateLimiter.ts).  Token amounts are JS floats that
   in this model are exact rationals; timestamps are Nat milliseconds.
--------------------------------------------------------------------- -/

structure ModelLimits where
  requestsPerMinute : ℚ
  tokensPerMinute : ℚ
  deriving DecidableEq, Repr

structure BucketState where
  requestTokens : ℚ
  tokenTokens : ℚ
  lastRefill : Nat
  deriving DecidableEq, Repr

/- RateLimiter.refill (lines 94-113). -/
def refillBucket (limits : ModelLimits) (b : BucketState) (now : Nat) :
    BucketState :=
  let elapsedMs : ℚ := (now : ℚ) - (b.lastRefill : ℚ)
  let elapsedMinutes : ℚ := elapsedMs / 60000
  if 0 < elapsedMinutes then
    { requestTokens :=
        min limits.requestsPerMinute
          (b.requestTokens + limits.requestsPerMinute * elapsedMinutes),
      tokenTokens :=
        min limits.tokensPerMinute
          (b.tokenTokens + limits.tokensPerMinute * elapsedMinutes),
      lastRefill := now }
  else b

/- RateLimiter.consume (lines 147-165): refill, then deduct one request
   slot and tokensUsed units, each clamped at zero; lastRefill is kept from
   the refilled bucket. -/
def consumeBucket (limits : ModelLimits) (b : BucketState) (tokensUsed : ℚ)
    (now : Nat) : BucketState :=
  let b1 := refillBucket limits b now
  { b1 with
      requestTokens := max 0 (b1.requestTokens - 1),
      tokenTokens := max 0 (b1.tokenTokens - tokensUsed) }

/- getStats (lines 188-204) reports Math.floor of the two balances. -/
def availableRequests (b : BucketState) : Int := Int.floor b.requestTokens

def availableTokens (b : BucketState) : Int := Int.floor b.tokenTokens

/- The sufficiency check of canProceed / waitForTokens:
   requestTokens >= 1 && tokenTokens >= estimatedTokens. -/
def bucketSufficient (b : BucketState) (est : ℚ) : Prop :=
  1 ≤ b.requestTokens ∧ est ≤ b.tokenTokens

instance (b : BucketState) (est : ℚ) : Decidable (bucketSufficient b est) :=
  inferInstanceAs (Decidable (And _ _))

/- The per-iteration wait computation of waitForTokens (lines 133-139):
   time until both deficits are refilled at the per-minute rates. -/
def timeToSufficiency (limits : ModelLimits) (est : ℚ) (b : BucketState) : ℚ :=
  let requestDeficit := max 0 (1 - b.requestTokens)
  let tokenDeficit := max 0 (est - b.tokenTokens)
  let requestWaitMs := requestDeficit / limits.requestsPerMinute * 60000
  let tokenWaitMs := tokenDeficit / limits.tokensPerMinute * 60000
  max requestWaitMs tokenWaitMs

def sleepMs (limits : ModelLimits) (est : ℚ) (b : BucketState) : Nat :=
  min (Int.toNat (Int.ceil (timeToSufficiency limits est b))) 5000

/- RateLimiter.waitForTokens (lines 121-145), with the wall clock made
   explicit: `now` advances exactly by each sleep.  The loop is written
   with fuel; `none` marks fuel exhaustion and is proved unreachable for
   fuel > maxWaitMs whenever both rates are positive.  The returned trace
   records, for every sleep taken, the refilled bucket that was found
   insufficient and the milliseconds slept. -/
def waitLoop (limits : ModelLimits) (est : ℚ) (maxWaitMs start : Nat) :
    Nat → BucketState → Nat →
    Option (Bool × BucketState × Nat × List (BucketState × Nat))
  | 0, _, _ => none
  | Nat.succ fuel, b, now =>
    if now - start < maxWaitMs then
      let b1 := refillBucket limits b now
      if bucketSufficient b1 est then some (true, b1, now, [])
      else
        let s := sleepMs limits est b1
        match waitLoop limits est maxWaitMs start fuel b1 (now + s) with
        | none => none
        | some (r, b2, n2, tr) => some (r, b2, n2, (b1, s) :: tr)
    else some (false, b, now, [])

def waitForTokens (limits : ModelLimits) (est : ℚ) (maxWaitMs : Nat)
    (b : BucketState) (start : Nat) :
    Option (Bool × BucketState × Nat × List (BucketState × Nat)) :=
  waitLoop limits est maxWaitMs start (maxWaitMs + 1) b start

/- ---------------------------------------------------------------------
   JobWorker (src/lib/worker.ts).  The job store rows and the conditional
   claim update are modelled per the store contract of spec section 6: the
   update applies to the rows matching both filters and reports the
   affected-row count; a zero-row match is a successful update, not an
   error (errors signal infrastructure failure only, which does not occur
   in the modelled runs, hence the update error below is always none).
--------------------------------------------------------------------- -/

inductive JobStatus where
  | pending
  | processing
  | complete
  | failed
  deriving DecidableEq, Repr

structure JobRow where
  id : String
  documentId : Option String
  priority : Int
  status : JobStatus
  attempts : Nat
  maxAttempts : Nat
  errorMessage : Option String
  createdAt : Nat
  startedAt : Option Nat
  completedAt : Option Nat
  deriving DecidableEq, Repr

structure DocRow where
  id : String
  status : String
  errorMessage : Option String
  deriving DecidableEq, Repr

structure Store where
  jobs : List JobRow
  documents : List DocRow
  deriving DecidableEq, Repr

def failedStatus : String := "failed"

def processingStatus : String := "processing"

/- Is job a at least as good as job b in the acquisition order
   (priority descending, created_at ascending)? -/
def jobPreferred (a b : JobRow) : Bool :=
  if b.priority < a.priority then true
  else if a.priority = b.priority then decide (a.createdAt ≤ b.createdAt)
  else false

/- The select of acquireJob (lines 112-118): highest-priority oldest
   pending job, earlier row winning ties. -/
def selectTopPending (jobs : List JobRow) : Option JobRow :=
  (jobs.filter (fun j => decide (j.status = JobStatus.pending))).foldl
    (fun best j =>
      match best with
      | none => some j
      | some bj => if jobPreferred bj j then some bj else some j)
    none

/- The conditional claim update of acquireJob (lines 126-133):
   UPDATE job_queue SET status=processing, started_at=now
   WHERE id = jobId AND status = pending.
   Returns the updated rows, the affected-row count, and the update error,
   which is none: per the store contract a zero-row match is not an error. -/
def claimUpdate (st : Store) (jobId : String) (now : Nat) :
    Store × Nat × Option String :=
  let affected :=
    (st.jobs.filter
      (fun j => decide (j.id = jobId ∧ j.status = JobStatus.pending))).length
  let jobs2 := st.jobs.map (fun j =>
    if j.id = jobId ∧ j.status = JobStatus.pending then
      { j with status := JobStatus.processing, startedAt := some now }
    else j)
  ({ st with jobs := jobs2 }, affected, none)

/- JobWorker.acquireJob (lines 109-140): select, then conditional update;
   the source returns null only when the select fails/returns nothing or
   when the update reports an error.  The affected-row count is never
   consulted. -/
def acquireJob (st : Store) (now : Nat) : Option JobRow × Store :=
  match selectTopPending st.jobs with
  | none => (none, st)
  | some job =>
    match claimUpdate st job.id now with
    | (st2, _affected, some _) => (none, st2)
    | (st2, _affected, none) =>
      (some { job with status := JobStatus.processing, startedAt := some now }, st2)

def updateJobRow (jobs : List JobRow) (jobId : String) (f : JobRow → JobRow) :
    List JobRow :=
  jobs.map (fun j => if j.id = jobId then f j else j)

def updateDocRow (docs : List DocRow) (docId : String) (f : DocRow → DocRow) :
    List DocRow :=
  docs.map (fun d => if d.id = docId then f d else d)

/- JobWorker.handleJobFailure (lines 390-426). -/
def handleJobFailure (st : Store) (job : JobRow) (errMsg : String) (now : Nat) :
    Store :=
  let newAttempts := job.attempts + 1
  if newAttempts < job.maxAttempts then
    { st with jobs := updateJobRow st.jobs job.id (fun j =>
        { j with status := JobStatus.pending, attempts := newAttempts,
                 errorMessage := some errMsg }) }
  else
    let st2 :=
      { st with jobs := updateJobRow st.jobs job.id (fun j =>
          { j with status := JobStatus.failed, attempts := newAttempts,
                   errorMessage := some errMsg, completedAt := some now }) }
    match job.documentId with
    | some docId =>
      { st2 with documents := updateDocRow st2.documents docId (fun d =>
          { d with status := failedStatus, errorMessage := some errMsg }) }
    | none => st2

/- One poll cycle of a worker whose processJob always throws errMsg: the
   catch block of processJob (lines 160-164) routes every such exception to
   handleJobFailure. -/
def failingCycle (errMsg : String) (now : Nat) (st : Store) : Store :=
  match acquireJob st now with
  | (none, st1) => st1
  | (some job, st1) => handleJobFailure st1 job errMsg now

def runFailingCycles (errMsg : String) (now : Nat) : Nat → Store → Store
  | 0, st => st
  | Nat.succ n, st => runFailingCycles errMsg now n (failingCycle errMsg now st)

/- acquireJob split at its await boundary: the select and the conditional
   update are separate store round trips, so two workers can interleave
   them.  acquireFinish is the part of acquireJob after the select. -/
def acquireFinish (selected : Option JobRow) (st : Store) (now : Nat) :
    Option JobRow × Store :=
  match selected with
  | none => (none, st)
  | some job =>
    match claimUpdate st job.id now with
    | (st2, _affected, some _) => (none, st2)
    | (st2, _affected, none) =>
      (some { job with status := JobStatus.processing, startedAt := some now }, st2)

/- Two workers A and B racing for the same job: both selects read the same
   store snapshot, then the two conditional updates run in order. -/
def twoWorkerClaim (st : Store) (now : Nat) :
    Option JobRow × Option JobRow × Store :=
  let selA := selectTopPending st.jobs
  let selB := selectTopPending st.jobs
  let ra := acquireFinish selA st now
  let rb := acquireFinish selB ra.2 now
  (ra.1, rb.1, rb.2)

/- ---------------------------------------------------------------------
   Concrete scenario data.
--------------------------------------------------------------------- -/

def jobId1 : String := "job-1"

def docId1 : String := "doc-1"

def boomMsg : String := "boom"

def c1Job : JobRow :=
  { id := jobId1, documentId := none, priority := 0,
    status := JobStatus.pending, attempts := 0, maxAttempts := 3,
    errorMessage := none, createdAt := 0, startedAt := none,
    completedAt := none }

def c1Store : Store := { jobs := [c1Job], documents := [] }

def c2Doc0 : DocRow := { id := docId1, status := processingStatus, errorMessage := none }

def c2Job0 (m : Nat) : JobRow :=
  { id := jobId1, documentId := some docId1, priority := 0,
    status := JobStatus.pending, attempts := 0, maxAttempts := m,
    errorMessage := none, createdAt := 0, startedAt := none,
    completedAt := none }

def c2JobPending (m k : Nat) (msg : String) (now : Nat) : JobRow :=
  { c2Job0 m with attempts := k, errorMessage := some msg, startedAt := some now }

def c2JobFailed (m : Nat) (msg : String) (now : Nat) : JobRow :=
  { c2Job0 m with
    status := JobStatus.failed,
    attempts := m,
    errorMessage := some msg,
    startedAt := some now,
    completedAt := some now }

def c2DocFailed (msg : String) : DocRow :=
  { id := docId1, status := failedStatus, errorMessage := some msg }

def c2Store0 (m : Nat) : Store := { jobs := [c2Job0 m], documents := [c2Doc0] }

def c2StorePending (m k : Nat) (msg : String) (now : Nat) : Store :=
  { jobs := [c2JobPending m k msg now], documents := [c2Doc0] }

def c2StoreFailed (m : Nat) (msg : String) (now : Nat) : Store :=
  { jobs := [c2JobFailed m msg now], documents := [c2DocFailed msg] }

def c3Key : String := "k1"

def c3StaleVal : String := "stale"

def c3Val : String := "persisted-value"

def c3EntryExpired : CacheEntry String :=
  { key := c3Key, value := c3StaleVal, createdAt := 0, expiresAt := 10,
    accessCount := 0, lastAccessedAt := 0 }

def c3Adapter : AdapterModel String :=
  { getResult := fun _ => Except.ok (some c3Val),
    setResult := fun _ _ _ => Except.ok (),
    deleteResult := fun _ => Except.ok (),
    clearResult := Except.ok () }

def c3State : CacheState String :=
  { entries := [(c3Key, c3EntryExpired)], maxSize := 10, defaultTtlMs := 1000 }

def c4ErrMsg : String := "adapter boom"

def c4BadAdapter : AdapterModel String :=
  { getResult := fun _ => Except.error c4ErrMsg,
    setResult := fun _ _ _ => Except.error c4ErrMsg,
    deleteResult := fun _ => Except.error c4ErrMsg,
    clearResult := Except.error c4ErrMsg }

def c4EmptyState : CacheState String :=
  { entries := [], maxSize := 10, defaultTtlMs := 1000 }

def c4Key : String := "k"

def c5BigAudio : List Nat := List.replicate 15728640 0

def c5SpawnMsg : String := "spawn ffmpeg ENOENT"

def c5Enoent : ProcOutcome := ProcOutcome.spawnErr enoentCode c5SpawnMsg

def c5ErrMsg : String := inputAudioLabel ++ exceedsMsg ++ "10" ++ mbSuffix

def c6BigInput : List Nat := List.replicate 31457280 0

def inputMediaMsg25 : String := inputMediaLabel ++ exceedsMsg ++ "25" ++ mbSuffix

def videoMp4 : String := "video/mp4"

def limits10 : ModelLimits := { requestsPerMinute := 10, tokensPerMinute := 1000000 }

def rlFullBucket : BucketState :=
  { requestTokens := 10, tokenTokens := 1000000, lastRefill := 0 }

def rlAfterConsume : BucketState :=
  { requestTokens := 9, tokenTokens := 999000, lastRefill := 0 }

def rlRefilled : BucketState :=
  { requestTokens := 10, tokenTokens := 1000000, lastRefill := 60000 }

def cacheKeys {T : Type} (st : CacheState T) : List String :=
  st.entries.map Prod.fst

/- The well-formedness the in-memory cache maintains when no key is the
   empty string: keys are distinct and non-empty, and the live entry count
   is within capacity. -/
def goodCache {T : Type} (st : CacheState T) : Prop :=
  (cacheKeys st).Nodup ∧ (∀ k ∈ cacheKeys st, k ≠ emptyStr) ∧
    st.entries.length ≤ st.maxSize

def emptyCache (T : Type) (maxSize ttl : Nat) : CacheState T :=
  { entries := [], maxSize := maxSize, defaultTtlMs := ttl }

def cacheOpKey {T : Type} : CacheOp T → String
  | CacheOp.setOp k _ => k
  | CacheOp.getOp k => k

def c9KeyA : String := "a"

def c9KeyB : String := "b"

def c9KeyC : String := "c"

def c9EntryA : CacheEntry Nat :=
  { key := c9KeyA, value := 1, createdAt := 0, expiresAt := 100,
    accessCount := 0, lastAccessedAt := 0 }

def c9EntryB : CacheEntry Nat :=
  { key := c9KeyB, value := 2, createdAt := 0, expiresAt := 100,
    accessCount := 0, lastAccessedAt := 0 }

def c9TwoState : CacheState Nat :=
  { entries := [(c9KeyA, c9EntryA), (c9KeyB, c9EntryB)], maxSize := 2,
    defaultTtlMs := 1000 }

def c9EntryA2 : CacheEntry Nat :=
  { c9EntryA with accessCount := 1, lastAccessedAt := 5 }

def c9PromotedState : CacheState Nat :=
  { entries := [(c9KeyB, c9EntryB), (c9KeyA, c9EntryA2)], maxSize := 2,
    defaultTtlMs := 1000 }

def c9Ops : List (Nat × CacheOp Nat) :=
  [(0, CacheOp.setOp c9KeyA 1), (1, CacheOp.setOp c9KeyB 2),
   (2, CacheOp.getOp c9KeyA), (3, CacheOp.setOp c9KeyC 3)]

def keyA : String := "a"

def keyBC : String := "b:c"

def keyAB : String := "a:b"

def keyC : String := "c"

def hashC : String := "h"

def optX : String := "x"

/- ---------------------------------------------------------------------
   Theorems.
--------------------------------------------------------------------- -/

/-- C10: LRUCache.createKey hashes the colon-join of its normalized parts,
so it is not injective: the distinct part lists ("a", "b:c") and
("a:b", "c") produce one key; equal part lists always produce equal keys;
and distinct (operation, contentHash, options) inputs of
AnalysisCache.createAnalysisKey can collide onto one cache entry — both
through `options ?? .empty.` defaulting (no options vs empty options) and
through JSON.stringify dropping a property whose value is undefined. -/
theorem createKey_join_collisions (hash : String → String) :
    createKey hash [KeyPart.str keyA, KeyPart.str keyBC] =
      createKey hash [KeyPart.str keyAB, KeyPart.str keyC] ∧
    [KeyPart.str keyA, KeyPart.str keyBC] ≠ [KeyPart.str keyAB, KeyPart.str keyC] ∧
    (∀ p q : List KeyPart, p = q → createKey hash p = createKey hash q) ∧
    createAnalysisKey hash AnalysisOp.analyze hashC none =
      createAnalysisKey hash AnalysisOp.analyze hashC (some []) ∧
    (none : Option (List (String × JsVal))) ≠ some [] ∧
    createAnalysisKey hash AnalysisOp.analyze hashC (some [(optX, JsVal.undef)]) =
      createAnalysisKey hash AnalysisOp.analyze hashC (some []) ∧
    (some [(optX, JsVal.undef)] : Option (List (String × JsVal))) ≠ some [] := by
  refine ⟨?_, by decide, fun p q h => by rw [h], rfl, by decide, ?_, by decide⟩
  · unfold createKey
    have h : joinColon ([KeyPart.str keyA, KeyPart.str keyBC].map normalizePart) =
        joinColon ([KeyPart.str keyAB, KeyPart.str keyC].map normalizePart) := by
      decide
    rw [h]
  · unfold createAnalysisKey createKey
    have h : jsonStringifyRec ((some [(optX, JsVal.undef)]).getD []) =
        jsonStringifyRec ((some ([] : List (String × JsVal))).getD []) := by
      decide
    rw [h]

/-- C10 witness: the determinism conjunct of createKey_join_collisions has
a propositional hypothesis; instantiating everything at the identity hash
and a concrete part list discharges it. -/
theorem createKey_join_collisions_witness :
    createKey (fun s => s) [KeyPart.str keyA, KeyPart.str keyBC] =
      createKey (fun s => s) [KeyPart.str keyAB, KeyPart.str keyC] ∧
    createKey (fun s => s) [KeyPart.null] = createKey (fun s => s) [KeyPart.null] ∧
    createAnalysisKey (fun s => s) AnalysisOp.analyze hashC (some [(optX, JsVal.undef)]) =
      createAnalysisKey (fun s => s) AnalysisOp.analyze hashC (some []) := by
  have h := createKey_join_collisions (fun s => s)
  exact ⟨h.1, h.2.2.1 [KeyPart.null] [KeyPart.null] rfl, h.2.2.2.2.2.1⟩

/-- C1 (evaluating the code at the failing input): one pending job, two
workers whose selects both read it before either conditional update runs.
The first claimer wins; the second claimer's conditional update matches
zero rows and reports no error, and acquireJob hands the loser the job
anyway (only an update *error* makes it return null).  Both claim results
are non-null even though exactly one row ends processing — the claim
"exactly one success and one null" is false of the code. -/
theorem acquireJob_concurrent_claim_bug :
    (twoWorkerClaim c1Store 5).1.isSome = true ∧
    (twoWorkerClaim c1Store 5).2.1.isSome = true ∧
    ((twoWorkerClaim c1Store 5).2.2.jobs.filter
        (fun j => decide (j.status = JobStatus.processing))).length = 1 ∧
    (claimUpdate ((claimUpdate c1Store jobId1 5).1) jobId1 5).2.1 = 0 ∧
    (acquireFinish (some c1Job) ((claimUpdate c1Store jobId1 5).1) 5).1.isSome = true := by
  decide

/-- C9 counterexample: with maxSize 1, setting the empty-string key and
then a second key leaves two live entries — evictLRU's JS truthiness test
`if (oldestKey)` skips eviction when the LRU key is the empty string, so
the live count exceeds maxSize. -/
theorem cache_empty_key_breaks_bound :
    (runCacheOps (emptyCache Nat 1 1000)
        [(0, CacheOp.setOp emptyStr 1), (1, CacheOp.setOp c9KeyA 2)]).entries.length = 2 ∧
    (emptyCache Nat 1 1000).maxSize = 1 ∧
    ¬ (runCacheOps (emptyCache Nat 1 1000)
          [(0, CacheOp.setOp emptyStr 1), (1, CacheOp.setOp c9KeyA 2)]).entries.length ≤
        (emptyCache Nat 1 1000).maxSize := by
  decide

/-- C3 counterexample: a key whose in-memory entry is expired (expiresAt 10,
now 11) while the adapter holds a value for it: get deletes the entry and
returns null without consulting the adapter, instead of falling through
and returning the persisted value as the claim states. -/
theorem cacheGet_expired_no_adapter_fallthrough :
    cacheGet (some c3Adapter) c3State c3Key 11 =
      Except.ok (none, { c3State with entries := [] }) ∧
    c3Adapter.getResult c3Key = Except.ok (some c3Val) ∧
    (Except.ok ((none : Option String), { c3State with entries := [] }) :
        Except String (Option String × CacheState String)) ≠
      Except.ok (some c3Val, { c3State with entries := [] }) := by
  decide

/-- C4 counterexample: with an adapter whose get rejects, a get of an
absent key propagates the adapter error to the caller (the source awaits
the adapter with no try/catch), instead of still returning the in-memory
answer null as the claim states. -/
theorem cacheGet_adapter_error_propagates :
    cacheGet (some c4BadAdapter) c4EmptyState c4Key 0 = Except.error c4ErrMsg ∧
    (Except.error c4ErrMsg :
        Except String (Option String × CacheState String)) ≠
      Except.ok (none, c4EmptyState) := by
  decide

/-- C8: from a full 10 requests-per-minute, 1000000 units-per-minute
bucket, a single consume of 1000 units with no elapsed time leaves exactly
9 request tokens and 999000 unit tokens (reported as availableRequests 9
and availableTokens 999000); a refill after one full idle minute restores
both budgets exactly to capacity; and a refill never lifts a
within-capacity bucket above capacity. -/
theorem rateLimiter_consume_refill_math :
    consumeBucket limits10 rlFullBucket 1000 0 = rlAfterConsume ∧
    availableRequests rlAfterConsume = 9 ∧
    availableTokens rlAfterConsume = 999000 ∧
    refillBucket limits10 rlAfterConsume 60000 = rlRefilled ∧
    (∀ (l : ModelLimits) (bk : BucketState) (t : Nat),
      bk.requestTokens ≤ l.requestsPerMinute →
      bk.tokenTokens ≤ l.tokensPerMinute →
      (refillBucket l bk t).requestTokens ≤ l.requestsPerMinute ∧
      (refillBucket l bk t).tokenTokens ≤ l.tokensPerMinute) := by
  refine ⟨?_, ?_, ?_, ?_, ?_⟩
  · simp only [consumeBucket, refillBucket, limits10, rlFullBucket, rlAfterConsume]
    norm_num [max_def, min_def]
  · simp only [availableRequests, rlAfterConsume]
    norm_num
  · simp only [availableTokens, rlAfterConsume]
    norm_num
  · simp only [refillBucket, limits10, rlAfterConsume, rlRefilled]
    norm_num [max_def, min_def]
  intro l bk t h1 h2
  unfold refillBucket
  by_cases hc : (0 : ℚ) < ((t : ℚ) - (bk.lastRefill : ℚ)) / 60000
  · simp only [hc, if_true]
    exact ⟨min_le_left _ _, min_le_left _ _⟩
  · simp only [hc, if_false]
    exact ⟨h1, h2⟩

/-- C8 witness: the never-overshoot conjunct applied to the configured
10 and 1000000 per-minute bucket at full capacity. -/
theorem rateLimiter_consume_refill_math_witness :
    rlFullBucket.requestTokens ≤ limits10.requestsPerMinute ∧
    rlFullBucket.tokenTokens ≤ limits10.tokensPerMinute ∧
    (refillBucket limits10 rlFullBucket 60000).requestTokens ≤
      limits10.requestsPerMinute ∧
    (refillBucket limits10 rlFullBucket 60000).tokenTokens ≤
      limits10.tokensPerMinute := by
  have hb1 : rlFullBucket.requestTokens ≤ limits10.requestsPerMinute := by
    simp only [rlFullBucket, limits10]
    norm_num
  have hb2 : rlFullBucket.tokenTokens ≤ limits10.tokensPerMinute := by
    simp only [rlFullBucket, limits10]
    norm_num
  have h := (rateLimiter_consume_refill_math.2.2.2.2) limits10 rlFullBucket 60000 hb1 hb2
  exact ⟨hb1, hb2, h.1, h.2⟩

/-- Helper: once accumulated subprocess output must overflow sizeLimit,
the stdout pump ends in an error (the overflow is hit at some chunk). -/
theorem pumpChunks_overflow (sizeLimit : Nat) :
    ∀ (chunks : List (List Nat)) (acc : List (List Nat)) (size : Nat),
      size ≤ sizeLimit → sizeLimit < size + (chunks.map List.length).sum →
      exceptIsError (pumpChunks sizeLimit acc size chunks) = true := by
  intro chunks
  induction chunks with
  | nil =>
    intro acc size h1 h2
    simp at h2
    omega
  | cons c rest ih =>
    intro acc size h1 h2
    unfold pumpChunks validateMediaSize
    by_cases hc : sizeLimit < size + c.length
    · simp only [if_pos hc]
      rfl
    · simp only [if_neg hc]
      refine ih (acc ++ [c]) (size + c.length) (Nat.le_of_not_lt hc) ?_
      simp at h2 ⊢
      omega

/-- Helper: a successful close-handler result was validated against
sizeLimit. -/
theorem closeOutcome_ok_bound (sizeLimit : Nat) (acc : List (List Nat))
    (ec : Int) (st : String) (r : MediaBufferResult)
    (h : closeOutcome sizeLimit acc ec st = Except.ok r) :
    r.audioBuffer.length ≤ sizeLimit := by
  unfold closeOutcome validateMediaSize at h
  by_cases hec : ec ≠ 0
  · simp only [if_pos hec] at h
    exact absurd h (by simp)
  · simp only [if_neg hec] at h
    by_cases hsz : sizeLimit < acc.flatten.length
    · simp only [if_pos hsz] at h
      exact absurd h (by simp)
    · simp only [if_neg hsz] at h
      have hr : r = { audioBuffer := acc.flatten, audioMimeType := wavMime } := by
        cases h
        rfl
      rw [hr]
      exact Nat.le_of_not_lt hsz

/-- Helper: a successful missing-executable fallback was validated against
sizeLimit. -/
theorem fallbackToInput_ok_bound (buf : List Nat) (mime : String)
    (sizeLimit : Nat) (r : MediaBufferResult)
    (h : fallbackToInput buf mime sizeLimit = Except.ok r) :
    r.audioBuffer.length ≤ sizeLimit := by
  unfold fallbackToInput validateMediaSize at h
  by_cases hm : strStartsWith mime audioStart = true
  · simp only [hm, if_true] at h
    by_cases hsz : sizeLimit < buf.length
    · simp only [if_pos hsz] at h
      exact absurd h (by simp)
    · simp only [if_neg hsz] at h
      have hr : r = { audioBuffer := buf, audioMimeType := mime } := by
        cases h
        rfl
      rw [hr]
      exact Nat.le_of_not_lt hsz
  · simp only [Bool.not_eq_true] at hm
    simp only [hm] at h
    exact absurd h (by simp)

/-- C5 counterexample: a 15MB audio buffer with the default 10MB
post-transcode sizeLimit and a missing executable (ENOENT).  The claim
says every audio input resolves with the original buffer unchanged, but
fallbackToInput re-validates the input against sizeLimit, so this call
fails with the size error instead of resolving with the buffer. -/
theorem transcode_enoent_oversized_audio_fails :
    transcodeToMonoWav c5BigAudio wavMime maxAudioBytes c5Enoent =
      { spawned := true, killed := false, result := Except.error c5ErrMsg } ∧
    (Except.error c5ErrMsg : Except String MediaBufferResult) ≠
      Except.ok { audioBuffer := c5BigAudio, audioMimeType := wavMime } := by
  have haux : ∀ buf : List Nat, buf.length = 15728640 →
      transcodeToMonoWav buf wavMime maxAudioBytes c5Enoent =
        { spawned := true, killed := false, result := Except.error c5ErrMsg } := by
    intro buf h
    have hsw : strStartsWith wavMime audioStart = true := by decide
    simp only [transcodeToMonoWav, fallbackToInput, validateMediaSize, h, c5Enoent,
      maxMediaBytes, maxAudioBytes, hsw]
    norm_num
    decide
  refine ⟨haux c5BigAudio ?_, by simp⟩
  unfold c5BigAudio
  exact List.length_replicate _ _

/-- C5 (amended): on a missing executable (ENOENT) an audio input within
sizeLimit resolves with the original buffer and original mime type
unchanged, while a video input is rejected with a hard failure; an audio
input larger than sizeLimit does not resolve with the buffer (see the
counterexample). -/
theorem transcode_enoent_fallback_behavior (buf : List Nat) (mime : String)
    (sizeLimit : Nat) (msg : String) :
    (buf.length ≤ maxMediaBytes → strStartsWith mime audioStart = true →
      buf.length ≤ sizeLimit →
      transcodeToMonoWav buf mime sizeLimit (ProcOutcome.spawnErr enoentCode msg) =
        { spawned := true, killed := false,
          result := Except.ok { audioBuffer := buf, audioMimeType := mime } }) ∧
    (buf.length ≤ maxMediaBytes → strStartsWith mime audioStart = false →
      strStartsWith mime videoStart = true →
      transcodeToMonoWav buf mime sizeLimit (ProcOutcome.spawnErr enoentCode msg) =
        { spawned := true, killed := false,
          result := Except.error ffmpegRequiredMsg }) := by
  constructor
  · intro h1 h2 h3
    have hv1 : validateMediaSize buf.length maxMediaBytes inputMediaLabel =
        Except.ok () := by
      unfold validateMediaSize
      rw [if_neg (Nat.not_lt.mpr h1)]
    have hv2 : validateMediaSize buf.length sizeLimit inputAudioLabel =
        Except.ok () := by
      unfold validateMediaSize
      rw [if_neg (Nat.not_lt.mpr h3)]
    simp [transcodeToMonoWav, hv1, fallbackToInput, h2, hv2]
  · intro h1 h2 h3
    have hv1 : validateMediaSize buf.length maxMediaBytes inputMediaLabel =
        Except.ok () := by
      unfold validateMediaSize
      rw [if_neg (Nat.not_lt.mpr h1)]
    simp [transcodeToMonoWav, hv1, fallbackToInput, h2, h3]

/-- C5 witness: a small buffer, both mime shapes. -/
theorem transcode_enoent_fallback_witness :
    transcodeToMonoWav [0, 1] wavMime maxAudioBytes
        (ProcOutcome.spawnErr enoentCode c5SpawnMsg) =
      { spawned := true, killed := false,
        result := Except.ok { audioBuffer := [0, 1], audioMimeType := wavMime } } ∧
    transcodeToMonoWav [0, 1] videoMp4 maxAudioBytes
        (ProcOutcome.spawnErr enoentCode c5SpawnMsg) =
      { spawned := true, killed := false,
        result := Except.error ffmpegRequiredMsg } := by
  constructor
  · exact (transcode_enoent_fallback_behavior [0, 1] wavMime maxAudioBytes
      c5SpawnMsg).1 (by decide) (by decide) (by decide)
  · exact (transcode_enoent_fallback_behavior [0, 1] videoMp4 maxAudioBytes
      c5SpawnMsg).2 (by decide) (by decide) (by decide)

/-- Helper: once the accumulated subprocess output must exceed sizeLimit,
the run is killed and ends in an error. -/
theorem transcode_overflow_kills (buf : List Nat) (mime : String)
    (sizeLimit : Nat) (chunks : List (List Nat)) (ec : Int) (st : String)
    (h1 : buf.length ≤ maxMediaBytes)
    (h2 : (!strStartsWith mime audioStart && !strStartsWith mime videoStart) = false)
    (h3 : sizeLimit < (chunks.map List.length).sum) :
    (transcodeToMonoWav buf mime sizeLimit (ProcOutcome.runOk chunks ec st)).killed = true ∧
    exceptIsError
      (transcodeToMonoWav buf mime sizeLimit (ProcOutcome.runOk chunks ec st)).result = true := by
  have hv1 : validateMediaSize buf.length maxMediaBytes inputMediaLabel =
      Except.ok () := by
    unfold validateMediaSize
    rw [if_neg (Nat.not_lt.mpr h1)]
  have hperr : exceptIsError (pumpChunks sizeLimit [] 0 chunks) = true :=
    pumpChunks_overflow sizeLimit chunks [] 0 (Nat.zero_le _) (by omega)
  cases hp : pumpChunks sizeLimit [] 0 chunks with
  | error e =>
    simp only [transcodeToMonoWav, hv1, h2, hp]
    constructor <;> rfl
  | ok p =>
    rw [hp] at hperr
    exact absurd hperr (by simp [exceptIsError])

/-- Helper: any successful transcode result is within sizeLimit. -/
theorem transcode_result_ok_bound (buf : List Nat) (mime : String)
    (sizeLimit : Nat) (proc : ProcOutcome) (r : MediaBufferResult)
    (h : (transcodeToMonoWav buf mime sizeLimit proc).result = Except.ok r) :
    r.audioBuffer.length ≤ sizeLimit := by
  unfold transcodeToMonoWav at h
  split at h
  · exact absurd h (by simp)
  · split at h
    · exact absurd h (by simp)
    · split at h
      · split at h
        · exact fallbackToInput_ok_bound _ _ _ _ (by simpa using h)
        · exact absurd h (by simp)
      · split at h
        · exact absurd h (by simp)
        · exact closeOutcome_ok_bound _ _ _ _ _ (by simpa using h)

/-- C6: a 30MB input is rejected with the "exceeds maximum size" error
before the subprocess is spawned, whatever the mime type, sizeLimit and
subprocess behavior; once streaming, the moment accumulated stdout would
exceed sizeLimit the subprocess is killed and the call fails; and a
successful result never carries an audioBuffer larger than sizeLimit. -/
theorem transcode_size_governance :
    (∀ (mime : String) (sizeLimit : Nat) (proc : ProcOutcome),
      transcodeToMonoWav c6BigInput mime sizeLimit proc =
        { spawned := false, killed := false,
          result := Except.error inputMediaMsg25 }) ∧
    (∀ (buf : List Nat) (mime : String) (sizeLimit : Nat)
        (chunks : List (List Nat)) (ec : Int) (st : String),
      buf.length ≤ maxMediaBytes →
      (strStartsWith mime audioStart || strStartsWith mime videoStart) = true →
      sizeLimit < (chunks.map List.length).sum →
      (transcodeToMonoWav buf mime sizeLimit
          (ProcOutcome.runOk chunks ec st)).killed = true ∧
      exceptIsError (transcodeToMonoWav buf mime sizeLimit
          (ProcOutcome.runOk chunks ec st)).result = true) ∧
    (∀ (buf : List Nat) (mime : String) (sizeLimit : Nat) (proc : ProcOutcome)
        (r : MediaBufferResult),
      (transcodeToMonoWav buf mime sizeLimit proc).result = Except.ok r →
      r.audioBuffer.length ≤ sizeLimit) := by
  refine ⟨?_, ?_, transcode_result_ok_bound⟩
  · have haux : ∀ buf : List Nat, buf.length = 31457280 →
        ∀ (mime : String) (sizeLimit : Nat) (proc : ProcOutcome),
        transcodeToMonoWav buf mime sizeLimit proc =
          { spawned := false, killed := false,
            result := Except.error inputMediaMsg25 } := by
      intro buf hb mime sizeLimit proc
      have hv : validateMediaSize buf.length maxMediaBytes inputMediaLabel =
          Except.error inputMediaMsg25 := by
        rw [hb]
        decide
      simp [transcodeToMonoWav, hv]
    intro mime sizeLimit proc
    refine haux c6BigInput ?_ mime sizeLimit proc
    unfold c6BigInput
    exact List.length_replicate _ _
  · intro buf mime sizeLimit chunks ec st h1 h2 h3
    refine transcode_overflow_kills buf mime sizeLimit chunks ec st h1 ?_ h3
    cases ha : strStartsWith mime audioStart <;>
      cases hb : strStartsWith mime videoStart <;>
      simp [ha, hb] at h2 ⊢

/-- C6 witness: the three conjuncts at small concrete inputs. -/
theorem transcode_size_governance_witness :
    transcodeToMonoWav c6BigInput wavMime 100 (ProcOutcome.runOk [] 0 emptyStr) =
      { spawned := false, killed := false,
        result := Except.error inputMediaMsg25 } ∧
    (transcodeToMonoWav [] wavMime 2
        (ProcOutcome.runOk [[0, 0, 0]] 0 emptyStr)).killed = true ∧
    exceptIsError (transcodeToMonoWav [] wavMime 2
        (ProcOutcome.runOk [[0, 0, 0]] 0 emptyStr)).result = true ∧
    (MediaBufferResult.mk [2, 3] wavMime).audioBuffer.length ≤ 10 := by
  have h := transcode_size_governance
  have hb := h.2.1 [] wavMime 2 [[0, 0, 0]] 0 emptyStr (by decide) (by decide)
    (by decide)
  refine ⟨h.1 wavMime 100 (ProcOutcome.runOk [] 0 emptyStr), hb.1, hb.2, ?_⟩
  exact h.2.2 [1] wavMime 10 (ProcOutcome.runOk [[2, 3]] 0 emptyStr)
    (MediaBufferResult.mk [2, 3] wavMime) (by decide)

/-- Helper: first failing cycle from a fresh job when retries remain. -/
theorem c2_cycle_start (m : Nat) (msg : String) (now : Nat) (h : 1 < m) :
    failingCycle msg now (c2Store0 m) = c2StorePending m 1 msg now := by
  simp [failingCycle, acquireJob, selectTopPending, claimUpdate, handleJobFailure,
    updateJobRow, updateDocRow, c2StorePending, c2Store0, c2JobPending, c2Job0,
    jobPreferred, h]

/-- Helper: first failing cycle from a fresh job with max_attempts 1. -/
theorem c2_cycle_start_final (msg : String) (now : Nat) :
    failingCycle msg now (c2Store0 1) = c2StoreFailed 1 msg now := by
  simp [failingCycle, acquireJob, selectTopPending, claimUpdate, handleJobFailure,
    updateJobRow, updateDocRow, c2Store0, c2Job0,
    c2StoreFailed, c2JobFailed, c2Doc0, c2DocFailed, docId1, jobPreferred]

/-- Helper: a failing cycle from a retried pending job with retries left
increments attempts and returns the job to pending. -/
theorem c2_cycle_pending (m k : Nat) (msg : String) (now : Nat) (h2 : k + 1 < m) :
    failingCycle msg now (c2StorePending m k msg now) =
      c2StorePending m (k + 1) msg now := by
  simp [failingCycle, acquireJob, selectTopPending, claimUpdate, handleJobFailure,
    updateJobRow, updateDocRow, c2StorePending, c2Store0, c2JobPending, c2Job0,
    jobPreferred, h2]

/-- Helper: the exhausting failing cycle marks job and linked document
failed. -/
theorem c2_cycle_pending_final (m k : Nat) (msg : String) (now : Nat)
    (h2 : m = k + 1) :
    failingCycle msg now (c2StorePending m k msg now) = c2StoreFailed m msg now := by
  subst h2
  simp [failingCycle, acquireJob, selectTopPending, claimUpdate, handleJobFailure,
    updateJobRow, updateDocRow, c2StorePending, c2Store0, c2JobPending, c2Job0,
    c2StoreFailed, c2JobFailed, c2Doc0, c2DocFailed, docId1, jobPreferred]

/-- Helper: a failed job is never selected again; cycles are no-ops. -/
theorem c2_cycle_failed (m : Nat) (msg : String) (now : Nat) :
    failingCycle msg now (c2StoreFailed m msg now) = c2StoreFailed m msg now := by
  simp [failingCycle, acquireJob, selectTopPending, claimUpdate,
    c2StoreFailed, c2JobFailed, c2Job0, jobPreferred]

/-- Helper: iterating cycles on the failed store stays failed. -/
theorem c2_run_failed (m : Nat) (msg : String) (now : Nat) :
    ∀ j, runFailingCycles msg now j (c2StoreFailed m msg now) =
      c2StoreFailed m msg now := by
  intro j
  induction j with
  | zero => rfl
  | succ n ih =>
    show runFailingCycles msg now n
      (failingCycle msg now (c2StoreFailed m msg now)) = _
    rw [c2_cycle_failed, ih]

/-- Helper: iterating cycles from a pending job with k prior attempts. -/
theorem c2_run_from_pending (m : Nat) (msg : String) (now : Nat) :
    ∀ (j k : Nat), 1 ≤ k → k < m →
      runFailingCycles msg now j (c2StorePending m k msg now) =
        if k + j < m then c2StorePending m (k + j) msg now
        else c2StoreFailed m msg now := by
  intro j
  induction j with
  | zero =>
    intro k h1 h2
    rw [if_pos (by omega)]
    rfl
  | succ n ih =>
    intro k h1 h2
    show runFailingCycles msg now n
      (failingCycle msg now (c2StorePending m k msg now)) = _
    by_cases hc : k + 1 < m
    · rw [c2_cycle_pending m k msg now hc, ih (k + 1) (by omega) hc]
      have he : k + 1 + n = k + (n + 1) := by omega
      rw [he]
    · have hm : m = k + 1 := by omega
      rw [c2_cycle_pending_final m k msg now hm, c2_run_failed]
      rw [if_neg (by omega)]

/-- Helper: cycle iteration composes additively. -/
theorem c2_run_add (msg : String) (now : Nat) :
    ∀ (a b : Nat) (st : Store),
      runFailingCycles msg now (a + b) st =
        runFailingCycles msg now b (runFailingCycles msg now a st) := by
  intro a
  induction a with
  | zero =>
    intro b st
    rw [Nat.zero_add]
    rfl
  | succ n ih =>
    intro b st
    have he : n + 1 + b = (n + b) + 1 := by omega
    rw [he]
    show runFailingCycles msg now (n + b) (failingCycle msg now st) = _
    rw [ih b (failingCycle msg now st)]
    rfl

/-- C2: a job whose processing always throws msg, starting at attempts 0
with max_attempts m ≥ 1 (the schema constrains max_attempts to 1..10),
reaches status failed after exactly m claim/process cycles — attempts is
then exactly m, the error message is stored, and the linked document is
failed with the same message; any k < m cycles leave the job pending with
attempts = k (each failure returns it to pending, attempts incremented by
one, message stored); extra cycles beyond m change nothing. -/
theorem failing_job_reaches_failed_after_max_attempts (m k : Nat)
    (msg : String) (now : Nat) (hm : 1 ≤ m) :
    (runFailingCycles msg now m (c2Store0 m) = c2StoreFailed m msg now) ∧
    (∀ j, runFailingCycles msg now (m + j) (c2Store0 m) =
      c2StoreFailed m msg now) ∧
    (1 ≤ k → k < m →
      runFailingCycles msg now k (c2Store0 m) = c2StorePending m k msg now) ∧
    (c2JobFailed m msg now).status = JobStatus.failed ∧
    (c2JobFailed m msg now).attempts = m ∧
    (c2JobFailed m msg now).errorMessage = some msg ∧
    (c2DocFailed msg).status = failedStatus ∧
    (c2DocFailed msg).errorMessage = some msg ∧
    (c2JobPending m k msg now).status = JobStatus.pending ∧
    (c2JobPending m k msg now).attempts = k := by
  have hrunm : runFailingCycles msg now m (c2Store0 m) =
      c2StoreFailed m msg now := by
    rcases Nat.lt_or_ge 1 m with h2 | h1m
    · cases m with
      | zero => omega
      | succ n =>
        show runFailingCycles msg now n
          (failingCycle msg now (c2Store0 (n + 1))) = _
        rw [c2_cycle_start (n + 1) msg now h2]
        rw [c2_run_from_pending (n + 1) msg now n 1 (by omega) (by omega)]
        rw [if_neg (by omega)]
    · have hm1 : m = 1 := by omega
      subst hm1
      show runFailingCycles msg now 0 (failingCycle msg now (c2Store0 1)) = _
      rw [c2_cycle_start_final]
      rfl
  refine ⟨hrunm, ?_, ?_, rfl, rfl, rfl, rfl, rfl, rfl, rfl⟩
  · intro j
    rw [c2_run_add msg now m j (c2Store0 m), hrunm, c2_run_failed]
  · intro h1 h2
    have h2m : 1 < m := by omega
    cases k with
    | zero => omega
    | succ n =>
      show runFailingCycles msg now n (failingCycle msg now (c2Store0 m)) = _
      rw [c2_cycle_start m msg now h2m]
      rw [c2_run_from_pending m msg now n 1 (by omega) h2m]
      rw [if_pos (by omega)]
      have he : 1 + n = n + 1 := by omega
      rw [he]

/-- C2 witness: the spec scenario — max_attempts 3, message "boom":
failed with attempts 3 after 3 cycles, pending with attempts 2 after 2,
document failed with the same message. -/
theorem failing_job_witness_boom :
    runFailingCycles boomMsg 7 3 (c2Store0 3) = c2StoreFailed 3 boomMsg 7 ∧
    runFailingCycles boomMsg 7 2 (c2Store0 3) = c2StorePending 3 2 boomMsg 7 ∧
    (c2JobFailed 3 boomMsg 7).attempts = 3 ∧
    (c2StoreFailed 3 boomMsg 7).documents = [c2DocFailed boomMsg] := by
  have h := failing_job_reaches_failed_after_max_attempts 3 2 boomMsg 7 (by decide)
  exact ⟨h.1, h.2.2.1 (by decide) (by decide), h.2.2.2.2.1, rfl⟩

/-- Helper: after a set of key k, a lookup of k finds exactly the new
entry (the JS Map.set semantics of the embedding). -/
theorem mapGet_mapSet_self {T : Type} :
    ∀ (es : List (String × CacheEntry T)) (k : String) (e : CacheEntry T),
      mapGet (mapSet es k e) k = some e := by
  intro es k e
  induction es with
  | nil => simp [mapSet, mapHas, mapGet]
  | cons p rest ih =>
    by_cases hp : p.1 == k
    · have hhas : mapHas (p :: rest) k = true := by
        simp [mapHas, mapGet, List.find?, hp]
      have hp2 : p.1 = k := by simpa using hp
      simp [mapSet, hhas, mapGet, List.find?, hp2]
    · have hhas : mapHas (p :: rest) k = mapHas rest k := by
        simp [mapHas, mapGet, List.find?, hp]
      by_cases hr : mapHas rest k = true
      · have h1 : mapHas (p :: rest) k = true := by rw [hhas]; exact hr
        have h2 : mapSet rest k e =
            rest.map (fun q => if q.1 == k then (k, e) else q) := by
          simp [mapSet, hr]
        simp only [mapSet, h1, if_true, List.map]
        have ih2 := ih
        rw [h2] at ih2
        simpa [mapGet, List.find?, hp] using ih2
      · have h1 : mapHas (p :: rest) k = false := by
          rw [hhas]
          simpa using hr
        have h2 : mapSet rest k e = rest ++ [(k, e)] := by
          simp [mapSet, hr]
        simp only [mapSet, h1, Bool.false_eq_true, if_false, List.cons_append]
        have ih2 := ih
        rw [h2] at ih2
        simpa [mapGet, List.find?, hp] using ih2

/-- C3 (amended): only a key absent from the in-memory map falls through
to the persistence adapter — an adapter hit is returned and backfilled
into memory, and get returns null when the adapter also misses; a key
present but expired is deleted and get returns null without consulting
the adapter (the fall-through the claim asserts for expired entries does
not exist). -/
theorem cacheGet_adapter_fallthrough_absent_only {T : Type}
    (a : AdapterModel T) (st : CacheState T) (k : String) (now : Nat) :
    (mapGet st.entries k = none →
      ((∀ v : T, a.getResult k = Except.ok (some v) →
        cacheGet (some a) st k now =
          Except.ok (some v, cacheSet st k v none now) ∧
        ∃ e2, mapGet (cacheSet st k v none now).entries k = some e2 ∧
          e2.value = v) ∧
       (a.getResult k = Except.ok none →
        cacheGet (some a) st k now = Except.ok (none, st)))) ∧
    (∀ e : CacheEntry T, mapGet st.entries k = some e → e.expiresAt < now →
      ∀ ad : Option (AdapterModel T),
        cacheGet ad st k now =
          Except.ok (none, { st with entries := mapDelete st.entries k })) := by
  constructor
  · intro habs
    constructor
    · intro v hv
      constructor
      · simp [cacheGet, habs, hv]
      · exact ⟨_, mapGet_mapSet_self _ k _, rfl⟩
    · intro hnone
      simp [cacheGet, habs, hnone]
  · intro e he hexp ad
    simp [cacheGet, he, hexp]

/-- C3 witness: the adapter-backed cache at concrete states — an absent
key returns the persisted value; the expired entry of the counterexample
state returns null. -/
theorem cacheGet_adapter_fallthrough_witness :
    cacheGet (some c3Adapter) c4EmptyState c3Key 0 =
      Except.ok (some c3Val, cacheSet c4EmptyState c3Key c3Val none 0) ∧
    cacheGet (some c3Adapter) c3State c3Key 11 =
      Except.ok (none, { c3State with entries := mapDelete c3State.entries c3Key }) := by
  constructor
  · exact (((cacheGet_adapter_fallthrough_absent_only c3Adapter c4EmptyState
      c3Key 0).1 (by decide)).1 c3Val (by decide)).1
  · exact (cacheGet_adapter_fallthrough_absent_only c3Adapter c3State
      c3Key 11).2 c3EntryExpired (by decide) (by decide) (some c3Adapter)

/-- C4 (amended): adapter outcomes never affect set, delete or clear —
set installs the in-memory entry, delete and clear take effect in memory
and swallow any adapter rejection; but an adapter error during get's
fall-through on an absent key propagates to the caller of get (the claim
is false for get). -/
theorem cache_adapter_error_isolation {T : Type}
    (adapter : Option (AdapterModel T)) (a : AdapterModel T)
    (st : CacheState T) (k : String) (v : T) (ttl : Option Nat) (now : Nat)
    (e : String) :
    (cacheSetWithAdapter adapter st k v ttl now = cacheSet st k v ttl now) ∧
    (cacheDelete adapter st k =
      (mapHas st.entries k, { st with entries := mapDelete st.entries k })) ∧
    (cacheClear adapter st = { st with entries := [] }) ∧
    (mapGet st.entries k = none → a.getResult k = Except.error e →
      cacheGet (some a) st k now = Except.error e) := by
  refine ⟨?_, ?_, ?_, ?_⟩
  · cases adapter with
    | none => rfl
    | some a2 =>
      cases h2 : a2.setResult k v (ttl.getD st.defaultTtlMs) <;>
        simp [cacheSetWithAdapter, h2]
  · cases adapter with
    | none => rfl
    | some a2 =>
      cases hd : mapHas st.entries k
      · simp [cacheDelete, hd]
      · cases h2 : a2.deleteResult k <;> simp [cacheDelete, hd, h2]
  · cases adapter with
    | none => rfl
    | some a2 =>
      cases h2 : a2.clearResult <;> simp [cacheClear, h2]
  · intro h1 h2
    simp [cacheGet, h1, h2]

/-- C4 witness: the isolation conjuncts at the rejecting adapter and a
concrete state. -/
theorem cache_adapter_error_isolation_witness :
    cacheSetWithAdapter (some c4BadAdapter) c4EmptyState c4Key c3StaleVal none 0 =
      cacheSet c4EmptyState c4Key c3StaleVal none 0 ∧
    cacheDelete (some c4BadAdapter) c4EmptyState c4Key =
      (mapHas c4EmptyState.entries c4Key,
        { c4EmptyState with entries := mapDelete c4EmptyState.entries c4Key }) ∧
    cacheClear (some c4BadAdapter) c4EmptyState = { c4EmptyState with entries := [] } ∧
    cacheGet (some c4BadAdapter) c4EmptyState c4Key 0 = Except.error c4ErrMsg := by
  have h := cache_adapter_error_isolation (some c4BadAdapter) c4BadAdapter
    c4EmptyState c4Key c3StaleVal none 0 c4ErrMsg
  exact ⟨h.1, h.2.1, h.2.2.1, h.2.2.2 (by decide) (by decide)⟩

/-- Helper: when the refilled bucket is insufficient and both per-minute
rates are positive, the computed sleep is at least one millisecond. -/
theorem sleepMs_pos (limits : ModelLimits) (est : ℚ) (b : BucketState)
    (hr : 0 < limits.requestsPerMinute) (ht : 0 < limits.tokensPerMinute)
    (h : ¬ bucketSufficient b est) : 1 ≤ sleepMs limits est b := by
  have hpos : 0 < timeToSufficiency limits est b := by
    unfold bucketSufficient at h
    push_neg at h
    unfold timeToSufficiency
    rcases lt_or_ge b.requestTokens 1 with hlt | hge
    · refine lt_of_lt_of_le ?_ (le_max_left _ _)
      have hd : (0 : ℚ) < max 0 (1 - b.requestTokens) := by
        rw [lt_max_iff]
        right
        linarith
      exact mul_pos (div_pos hd hr) (by norm_num)
    · have hto : b.tokenTokens < est := h hge
      refine lt_of_lt_of_le ?_ (le_max_right _ _)
      have hd : (0 : ℚ) < max 0 (est - b.tokenTokens) := by
        rw [lt_max_iff]
        right
        linarith
      exact mul_pos (div_pos hd ht) (by norm_num)
  have hceil : 0 < Int.ceil (timeToSufficiency limits est b) := Int.ceil_pos.mpr hpos
  unfold sleepMs
  refine le_min ?_ (by norm_num)
  omega

/-- Helper: the wait loop, run with enough fuel, always produces a
result; true as soon as a check finds sufficiency (within budget), false
exactly when the budget is exhausted, every sleep taken is the computed
formula, at least 1ms and at most the 5000ms step, and the final clock
never passes start + maxWaitMs + 5000. -/
theorem waitLoop_behavior (limits : ModelLimits) (est : ℚ) (maxWaitMs start : Nat)
    (hr : 0 < limits.requestsPerMinute) (ht : 0 < limits.tokensPerMinute) :
    ∀ (fuel : Nat) (b : BucketState) (now : Nat),
      start ≤ now → now ≤ start + maxWaitMs + 5000 →
      maxWaitMs - (now - start) < fuel →
      ∃ r bf nf tr,
        waitLoop limits est maxWaitMs start fuel b now = some (r, bf, nf, tr) ∧
        now ≤ nf ∧ nf ≤ start + maxWaitMs + 5000 ∧
        (r = true → bucketSufficient bf est ∧ nf - start < maxWaitMs) ∧
        (r = false → maxWaitMs ≤ nf - start) ∧
        (∀ p ∈ tr, ¬ bucketSufficient p.1 est ∧ p.2 = sleepMs limits est p.1 ∧
          1 ≤ p.2 ∧ p.2 ≤ 5000) := by
  intro fuel
  induction fuel with
  | zero =>
    intro b now h1 h2 h3
    omega
  | succ n ih =>
    intro b now h1 h2 h3
    by_cases hin : now - start < maxWaitMs
    · by_cases hsuf : bucketSufficient (refillBucket limits b now) est
      · refine ⟨true, refillBucket limits b now, now, [], ?_, le_refl _, by omega,
          fun _ => ⟨hsuf, hin⟩, by simp, by simp⟩
        simp only [waitLoop, if_pos hin, if_pos hsuf]
      · have hs1 : 1 ≤ sleepMs limits est (refillBucket limits b now) :=
          sleepMs_pos limits est (refillBucket limits b now) hr ht hsuf
        have hs2 : sleepMs limits est (refillBucket limits b now) ≤ 5000 :=
          min_le_right _ _
        obtain ⟨r, bf, nf, tr, heq, hle, hub, htrue, hfalse, htr⟩ :=
          ih (refillBucket limits b now)
            (now + sleepMs limits est (refillBucket limits b now))
            (by omega) (by omega) (by omega)
        refine ⟨r, bf, nf,
          (refillBucket limits b now,
            sleepMs limits est (refillBucket limits b now)) :: tr,
          ?_, by omega, hub, htrue, hfalse, ?_⟩
        · simp only [waitLoop, if_pos hin, if_neg hsuf, heq]
        · intro p hp
          rcases List.mem_cons.mp hp with hp1 | hp2
          · rw [hp1]
            exact ⟨hsuf, rfl, hs1, hs2⟩
          · exact htr p hp2
    · refine ⟨false, b, now, [], ?_, le_refl _, h2, by simp, fun _ => by omega, by simp⟩
      simp only [waitLoop, if_neg hin]

/-- C7: with positive per-minute rates, waitForTokens always returns
(never stalls): it returns true exactly when a refill check within the
maxWaitMs budget finds at least 1 request token and est unit tokens (and
immediately at the first check when that one already suffices); it
returns false exactly when maxWaitMs has elapsed without sufficiency, and
its clock never passes start + maxWaitMs + 5000; every intermediate sleep
equals min(ceil(time-to-sufficiency from the two deficits at the
per-minute rates), 5000), and is between 1 and 5000 ms. -/
theorem waitForTokens_bounded_wait (limits : ModelLimits) (est : ℚ)
    (maxWaitMs : Nat) (b : BucketState) (start : Nat)
    (hr : 0 < limits.requestsPerMinute) (ht : 0 < limits.tokensPerMinute) :
    (∃ r bf nf tr,
      waitForTokens limits est maxWaitMs b start = some (r, bf, nf, tr) ∧
      nf ≤ start + maxWaitMs + 5000 ∧
      (r = true → bucketSufficient bf est ∧ nf - start < maxWaitMs) ∧
      (r = false → maxWaitMs ≤ nf - start) ∧
      (∀ p ∈ tr, ¬ bucketSufficient p.1 est ∧ p.2 = sleepMs limits est p.1 ∧
        1 ≤ p.2 ∧ p.2 ≤ 5000)) ∧
    (bucketSufficient (refillBucket limits b start) est → 0 < maxWaitMs →
      waitForTokens limits est maxWaitMs b start =
        some (true, refillBucket limits b start, start, [])) := by
  constructor
  · obtain ⟨r, bf, nf, tr, heq, hmono, hub, htrue, hfalse, htr⟩ :=
      waitLoop_behavior limits est maxWaitMs start hr ht (maxWaitMs + 1) b start
        (le_refl _) (by omega) (by omega)
    exact ⟨r, bf, nf, tr, heq, hub, htrue, hfalse, htr⟩
  · intro hsuf h0
    unfold waitForTokens
    have hin : start - start < maxWaitMs := by omega
    simp only [waitLoop, if_pos hin, if_pos hsuf]

/-- C7 witness: the configured full bucket is sufficient at once, so the
wait returns true immediately with no sleeps. -/
theorem waitForTokens_bounded_wait_witness :
    waitForTokens limits10 1000 60000 rlFullBucket 0 =
      some (true, refillBucket limits10 rlFullBucket 0, 0, []) := by
  have h := (waitForTokens_bounded_wait limits10 1000 60000 rlFullBucket 0
    (by norm_num [limits10]) (by norm_num [limits10])).2
  refine h ?_ (by norm_num)
  have hre : refillBucket limits10 rlFullBucket 0 = rlFullBucket := by
    simp only [refillBucket, rlFullBucket, limits10]
    norm_num
  rw [hre]
  constructor <;> norm_num [rlFullBucket, bucketSufficient]

/-- Helper: a key is in the map exactly when some entry carries it. -/
theorem mapHas_iff_mem {T : Type} :
    ∀ (es : List (String × CacheEntry T)) (k : String),
      mapHas es k = true ↔ k ∈ es.map Prod.fst := by
  intro es k
  induction es with
  | nil => simp [mapHas, mapGet]
  | cons p rest ih =>
    by_cases hp : p.1 == k
    · have hp2 : p.1 = k := by simpa using hp
      simp [mapHas, mapGet, List.find?, hp, hp2]
    · have hp2 : ¬ p.1 = k := by simpa using hp
      simp only [mapHas, mapGet, List.find?, hp, List.map_cons, List.mem_cons]
      constructor
      · intro h
        right
        exact (ih.mp (by simpa [mapHas, mapGet] using h))
      · intro h
        rcases h with h1 | h2
        · exact absurd h1.symm hp2
        · simpa [mapHas, mapGet] using ih.mpr h2

/-- Helper: the negative form of mapHas_iff_mem. -/
theorem mapHas_false_iff {T : Type} (es : List (String × CacheEntry T))
    (k : String) : mapHas es k = false ↔ k ∉ es.map Prod.fst := by
  rw [← mapHas_iff_mem es k]
  cases mapHas es k <;> simp

/-- Helper: deleting a key filters exactly that key out of the key list. -/
theorem keys_mapDelete {T : Type} :
    ∀ (es : List (String × CacheEntry T)) (k : String),
      (mapDelete es k).map Prod.fst =
        (es.map Prod.fst).filter (fun x => x != k) := by
  intro es k
  induction es with
  | nil => rfl
  | cons p rest ih =>
    simp only [mapDelete, List.filter_cons, List.map_cons]
    by_cases hp : (p.1 != k) = true
    · simp only [hp, if_true, List.map_cons]
      rw [show mapDelete rest k = rest.filter (fun q => q.1 != k) from rfl] at ih
      rw [ih]
    · have hp2 : (p.1 != k) = false := by simpa using hp
      simp only [hp2, Bool.false_eq_true, if_false]
      rw [show mapDelete rest k = rest.filter (fun q => q.1 != k) from rfl] at ih
      rw [ih]

/-- Helper: deleting an absent key is a no-op. -/
theorem mapDelete_not_mem {T : Type} :
    ∀ (es : List (String × CacheEntry T)) (k : String),
      k ∉ es.map Prod.fst → mapDelete es k = es := by
  intro es k
  induction es with
  | nil => intro h; rfl
  | cons p rest ih =>
    intro h
    simp only [List.map_cons, List.mem_cons] at h
    push_neg at h
    have hp : (p.1 != k) = true := by
      simp [bne]
      exact fun hc => h.1 hc.symm
    simp only [mapDelete, List.filter_cons, hp, if_true]
    rw [show mapDelete rest k = rest.filter (fun q => q.1 != k) from rfl] at ih
    rw [ih h.2]

/-- Helper: deleting a present key from a nodup-keyed map shrinks it by
exactly one entry. -/
theorem mapDelete_length_mem {T : Type} :
    ∀ (es : List (String × CacheEntry T)) (k : String),
      (es.map Prod.fst).Nodup → k ∈ es.map Prod.fst →
      (mapDelete es k).length + 1 = es.length := by
  intro es k
  induction es with
  | nil => intro _ h; simp at h
  | cons p rest ih =>
    intro hnd hmem
    simp only [List.map_cons, List.nodup_cons] at hnd
    by_cases hp : p.1 = k
    · subst hp
      have hrest : mapDelete rest p.1 = rest := mapDelete_not_mem rest p.1 hnd.1
      simp only [mapDelete, List.filter_cons, bne_self_eq_false,
        Bool.false_eq_true, if_false]
      rw [show rest.filter (fun q => q.1 != p.1) = mapDelete rest p.1 from rfl, hrest]
      rfl
    · have hmem2 : k ∈ rest.map Prod.fst := by
        simp only [List.map_cons, List.mem_cons] at hmem
        rcases hmem with h1 | h2
        · exact absurd h1.symm hp
        · exact h2
      have hpb : (p.1 != k) = true := by
        simp [bne]
        exact hp
      simp only [mapDelete, List.filter_cons, hpb, if_true, List.length_cons]
      rw [show rest.filter (fun q => q.1 != k) = mapDelete rest k from rfl]
      rw [← ih hnd.2 hmem2]

/-- Helper: a deleted key is gone from the key list. -/
theorem not_mem_keys_mapDelete {T : Type} (es : List (String × CacheEntry T))
    (k : String) : k ∉ (mapDelete es k).map Prod.fst := by
  rw [keys_mapDelete]
  intro hc
  have := List.of_mem_filter hc
  simp at this

/-- Helper: keys surviving a delete were keys before. -/
theorem mem_keys_mapDelete {T : Type} (es : List (String × CacheEntry T))
    (k x : String) (h : x ∈ (mapDelete es k).map Prod.fst) :
    x ∈ es.map Prod.fst := by
  rw [keys_mapDelete] at h
  exact List.mem_of_mem_filter h

/-- Helper: delete preserves key distinctness. -/
theorem nodup_keys_mapDelete {T : Type} (es : List (String × CacheEntry T))
    (k : String) (h : (es.map Prod.fst).Nodup) :
    ((mapDelete es k).map Prod.fst).Nodup := by
  rw [keys_mapDelete]
  exact h.filter _

/-- Helper: setting an absent key appends the new entry at the back. -/
theorem mapSet_append_of_not_has {T : Type} (es : List (String × CacheEntry T))
    (k : String) (e : CacheEntry T) (h : mapHas es k = false) :
    mapSet es k e = es ++ [(k, e)] := by
  unfold mapSet
  rw [h]
  simp

/-- Helper: with distinct keys and a non-empty head key, evictLRU drops
exactly the first (least recently used) entry. -/
theorem evictLRU_cons {T : Type} (p : String × CacheEntry T)
    (rest : List (String × CacheEntry T))
    (hnd : ((p :: rest).map Prod.fst).Nodup) (hne : p.1 ≠ emptyStr) :
    evictLRU (p :: rest) = rest := by
  have hp : (p.1 == emptyStr) = false := by
    simp [hne]
  show (if p.1 == emptyStr then p :: rest else mapDelete (p :: rest) p.1) = rest
  rw [hp]
  simp only [Bool.false_eq_true, if_false]
  simp only [List.map_cons, List.nodup_cons] at hnd
  show List.filter (fun q => q.1 != p.1) (p :: rest) = rest
  rw [List.filter_cons]
  simp only [bne_self_eq_false, Bool.false_eq_true, if_false]
  rw [show List.filter (fun q => q.1 != p.1) rest = mapDelete rest p.1 from rfl]
  exact mapDelete_not_mem rest p.1 hnd.1

/-- Helper: eviction never invents keys. -/
theorem mem_keys_evictLRU {T : Type} (es : List (String × CacheEntry T))
    (x : String) (h : x ∈ (evictLRU es).map Prod.fst) : x ∈ es.map Prod.fst := by
  cases es with
  | nil => simp [evictLRU] at h
  | cons p rest =>
    by_cases hp : (p.1 == emptyStr) = true
    · rw [show evictLRU (p :: rest) = p :: rest by
        show (if p.1 == emptyStr then p :: rest else mapDelete (p :: rest) p.1) = _
        rw [hp]
        simp] at h
      exact h
    · rw [show evictLRU (p :: rest) = mapDelete (p :: rest) p.1 by
        show (if p.1 == emptyStr then p :: rest else mapDelete (p :: rest) p.1) = _
        rw [show (p.1 == emptyStr) = false by simpa using hp]
        simp] at h
      exact mem_keys_mapDelete _ _ _ h

/-- Helper: the key list after a set is the branch the source takes
followed by the new key. -/
theorem keys_cacheSet {T : Type} (st : CacheState T) (k : String) (v : T)
    (ttl : Option Nat) (now : Nat) :
    cacheKeys (cacheSet st k v ttl now) =
      (if mapHas st.entries k = true then (mapDelete st.entries k).map Prod.fst
       else if st.maxSize ≤ st.entries.length then (evictLRU st.entries).map Prod.fst
       else st.entries.map Prod.fst) ++ [k] := by
  by_cases hhas : mapHas st.entries k = true
  · have hnot : mapHas (mapDelete st.entries k) k = false :=
      (mapHas_false_iff _ _).mpr (not_mem_keys_mapDelete _ _)
    show (mapSet (if mapHas st.entries k then mapDelete st.entries k
      else if st.maxSize ≤ st.entries.length then evictLRU st.entries
      else st.entries) k _).map Prod.fst = _
    rw [hhas]
    simp only [if_true]
    rw [mapSet_append_of_not_has _ _ _ hnot, List.map_append]
    rfl
  · have hh2 : mapHas st.entries k = false := by simpa using hhas
    show (mapSet (if mapHas st.entries k then mapDelete st.entries k
      else if st.maxSize ≤ st.entries.length then evictLRU st.entries
      else st.entries) k _).map Prod.fst = _
    rw [hh2]
    simp only [Bool.false_eq_true, if_false]
    by_cases hlen : st.maxSize ≤ st.entries.length
    · simp only [hlen, if_true]
      have hnot : mapHas (evictLRU st.entries) k = false := by
        rw [mapHas_false_iff]
        intro hc
        have := mem_keys_evictLRU _ _ hc
        exact absurd this ((mapHas_false_iff _ _).mp hh2)
      rw [mapSet_append_of_not_has _ _ _ hnot, List.map_append]
      rfl
    · simp only [hlen, if_false]
      rw [mapSet_append_of_not_has _ _ _ hh2, List.map_append]
      rfl

/-- Helper: the cache well-formedness follows from a decomposition of the
key list as a non-member appended to a bounded nodup prefix. -/
theorem goodCache_of_append {T : Type} (st2 : CacheState T) (lb : List String)
    (k : String) (hk : cacheKeys st2 = lb ++ [k]) (hnd : lb.Nodup)
    (hknot : k ∉ lb) (hkne : k ≠ emptyStr) (hsub : ∀ x ∈ lb, x ≠ emptyStr)
    (hlen : lb.length + 1 ≤ st2.maxSize) : goodCache st2 := by
  refine ⟨?_, ?_, ?_⟩
  · rw [hk]
    refine List.Nodup.append hnd (List.nodup_singleton k) ?_
    intro a ha hb
    simp only [List.mem_singleton] at hb
    subst hb
    exact hknot ha
  · intro x hx
    rw [hk] at hx
    rcases List.mem_append.mp hx with h1 | h2
    · exact hsub x h1
    · simp only [List.mem_singleton] at h2
      subst h2
      exact hkne
  · have h1 : st2.entries.length = (cacheKeys st2).length := by
      unfold cacheKeys
      rw [List.length_map]
    rw [h1, hk, List.length_append]
    simpa using hlen

/-- Helper: set preserves the cache well-formedness. -/
theorem goodCache_cacheSet {T : Type} (st : CacheState T) (k : String) (v : T)
    (ttl : Option Nat) (now : Nat) (hg : goodCache st) (hk : k ≠ emptyStr)
    (hmax : 1 ≤ st.maxSize) : goodCache (cacheSet st k v ttl now) := by
  obtain ⟨hnd, hne, hlen⟩ := hg
  unfold cacheKeys at hnd hne
  have hms : (cacheSet st k v ttl now).maxSize = st.maxSize := rfl
  have hkeys := keys_cacheSet st k v ttl now
  by_cases hhas : mapHas st.entries k = true
  · rw [if_pos hhas] at hkeys
    have hmem := (mapHas_iff_mem _ _).mp hhas
    have hdlen := mapDelete_length_mem st.entries k hnd hmem
    refine goodCache_of_append _ _ _ hkeys (nodup_keys_mapDelete _ _ hnd)
      (not_mem_keys_mapDelete _ _) hk
      (fun x hx => hne x (mem_keys_mapDelete _ _ _ hx)) ?_
    rw [List.length_map, hms]
    omega
  · rw [if_neg hhas] at hkeys
    have hh2 : mapHas st.entries k = false := by simpa using hhas
    have hknotin : k ∉ st.entries.map Prod.fst := (mapHas_false_iff _ _).mp hh2
    by_cases hfull : st.maxSize ≤ st.entries.length
    · rw [if_pos hfull] at hkeys
      cases hes : st.entries with
      | nil =>
        rw [hes] at hfull
        simp at hfull
        omega
      | cons p rest =>
        have hpne : p.1 ≠ emptyStr := by
          refine hne p.1 ?_
          rw [hes]
          simp
        have hev : evictLRU st.entries = rest := by
          rw [hes]
          refine evictLRU_cons p rest ?_ hpne
          rw [← hes]
          exact hnd
        rw [hev] at hkeys
        have hndrest : (rest.map Prod.fst).Nodup := by
          rw [hes] at hnd
          simp only [List.map_cons, List.nodup_cons] at hnd
          exact hnd.2
        refine goodCache_of_append _ _ _ hkeys hndrest ?_ hk ?_ ?_
        · intro hc
          refine hknotin ?_
          rw [hes]
          simp only [List.map_cons, List.mem_cons]
          right
          exact hc
        · intro x hx
          refine hne x ?_
          rw [hes]
          simp only [List.map_cons, List.mem_cons]
          right
          exact hx
        · rw [List.length_map, hms]
          rw [hes] at hlen
          simp only [List.length_cons] at hlen
          omega
    · rw [if_neg hfull] at hkeys
      refine goodCache_of_append _ _ _ hkeys hnd hknotin hk hne ?_
      rw [List.length_map, hms]
      omega

/-- Helper: a successful lookup means the key is present. -/
theorem mapHas_of_mapGet_some {T : Type} (es : List (String × CacheEntry T))
    (k : String) (e : CacheEntry T) (h : mapGet es k = some e) :
    mapHas es k = true := by
  unfold mapHas
  rw [h]
  rfl

/-- Helper: get (without adapter) preserves the cache well-formedness and
the capacity. -/
theorem goodCache_cacheGetState {T : Type} (st : CacheState T) (k : String)
    (now : Nat) (hg : goodCache st) (r : Option T) (st2 : CacheState T)
    (heq : cacheGet none st k now = Except.ok (r, st2)) :
    goodCache st2 ∧ st2.maxSize = st.maxSize := by
  obtain ⟨hnd, hne, hlen⟩ := hg
  cases hget : mapGet st.entries k with
  | none =>
    simp only [cacheGet, hget, Except.ok.injEq, Prod.mk.injEq] at heq
    rw [← heq.2]
    exact ⟨⟨hnd, hne, hlen⟩, rfl⟩
  | some e =>
    by_cases hexp : e.expiresAt < now
    · simp only [cacheGet, hget, hexp, if_true, Except.ok.injEq, Prod.mk.injEq] at heq
      rw [← heq.2]
      refine ⟨⟨?_, ?_, ?_⟩, rfl⟩
      · exact nodup_keys_mapDelete _ _ hnd
      · intro x hx
        exact hne x (mem_keys_mapDelete _ _ _ hx)
      · exact le_trans (List.length_filter_le _ _) hlen
    · simp only [cacheGet, hget, hexp, if_false, Except.ok.injEq, Prod.mk.injEq] at heq
      rw [← heq.2]
      have hmem : k ∈ st.entries.map Prod.fst :=
        (mapHas_iff_mem _ _).mp (mapHas_of_mapGet_some _ _ _ hget)
      have hnot : mapHas (mapDelete st.entries k) k = false :=
        (mapHas_false_iff _ _).mpr (not_mem_keys_mapDelete _ _)
      have hkeys : (mapSet (mapDelete st.entries k) k
          { e with accessCount := e.accessCount + 1, lastAccessedAt := now }).map Prod.fst =
          (mapDelete st.entries k).map Prod.fst ++ [k] := by
        rw [mapSet_append_of_not_has _ _ _ hnot, List.map_append]
        rfl
      have hdlen := mapDelete_length_mem st.entries k hnd hmem
      refine ⟨?_, rfl⟩
      refine goodCache_of_append _ ((mapDelete st.entries k).map Prod.fst) k
        hkeys (nodup_keys_mapDelete _ _ hnd) (not_mem_keys_mapDelete _ _)
        (hne k hmem) (fun x hx => hne x (mem_keys_mapDelete _ _ _ hx)) ?_
      rw [List.length_map]
      show (mapDelete st.entries k).length + 1 ≤ st.maxSize
      omega

/-- Helper: a whole operation sequence preserves well-formedness and
capacity. -/
theorem goodCache_runCacheOps {T : Type} :
    ∀ (ops : List (Nat × CacheOp T)) (st : CacheState T),
      goodCache st → 1 ≤ st.maxSize →
      (∀ q ∈ ops, cacheOpKey q.2 ≠ emptyStr) →
      goodCache (runCacheOps st ops) ∧
        (runCacheOps st ops).maxSize = st.maxSize := by
  intro ops
  induction ops with
  | nil =>
    intro st hg hm hk
    exact ⟨hg, rfl⟩
  | cons q rest ih =>
    intro st hg hm hk
    have hstep : goodCache (applyCacheOp st q) ∧
        (applyCacheOp st q).maxSize = st.maxSize := by
      rcases q with ⟨t, op⟩
      cases op with
      | setOp k2 v2 =>
        exact ⟨goodCache_cacheSet st k2 v2 none t hg
          (hk (t, CacheOp.setOp k2 v2) (by simp)) hm, rfl⟩
      | getOp k2 =>
        cases hres : cacheGet none st k2 t with
        | error e =>
          simp only [applyCacheOp, hres]
          exact ⟨hg, trivial⟩
        | ok pr =>
          have hpr := goodCache_cacheGetState st k2 t hg pr.1 pr.2 (by rw [hres])
          simp only [applyCacheOp, hres]
          exact hpr
    obtain ⟨hg2, hms⟩ := hstep
    have hrest := ih (applyCacheOp st q) hg2 (by rw [hms]; exact hm)
      (fun p hp => hk p (by simp [hp]))
    exact ⟨hrest.1, hrest.2.trans hms⟩

/-- Helper: a set of a new key on a full well-formed cache evicts exactly
the first (least-recently-used) entry. -/
theorem cacheSet_evicts_lru {T : Type} (st : CacheState T) (k : String) (v : T)
    (ttl : Option Nat) (now : Nat) (hg : goodCache st)
    (hfull : st.entries.length = st.maxSize) (hmax : 1 ≤ st.maxSize)
    (hnew : mapHas st.entries k = false) :
    cacheKeys (cacheSet st k v ttl now) = (cacheKeys st).tail ++ [k] := by
  obtain ⟨hnd, hne, hlen⟩ := hg
  unfold cacheKeys at hnd hne
  have hkeys := keys_cacheSet st k v ttl now
  rw [if_neg (by rw [hnew]; simp)] at hkeys
  rw [if_pos (by omega)] at hkeys
  cases hes : st.entries with
  | nil =>
    rw [hes] at hfull
    simp at hfull
    omega
  | cons p rest =>
    have hpne : p.1 ≠ emptyStr := by
      refine hne p.1 ?_
      rw [hes]
      simp
    have hev : evictLRU st.entries = rest := by
      rw [hes]
      refine evictLRU_cons p rest ?_ hpne
      rw [← hes]
      exact hnd
    rw [hev] at hkeys
    rw [hkeys]
    show List.map Prod.fst rest ++ [k] = (List.map Prod.fst st.entries).tail ++ [k]
    rw [hes]
    rfl

/-- Helper: a get of a live key immediately before the capacity-triggering
insert moves it to the back, so the insert evicts someone else and the
got key survives. -/
theorem get_protects_from_eviction {T : Type} (st : CacheState T)
    (k0 k : String) (v : T) (ttl : Option Nat) (now now2 : Nat)
    (e : CacheEntry T) (hg : goodCache st)
    (hfull : st.entries.length = st.maxSize) (hmax : 2 ≤ st.maxSize)
    (hget : mapGet st.entries k0 = some e) (hexp : ¬ e.expiresAt < now)
    (hnew : mapHas st.entries k = false) :
    ∀ (r : Option T) (st1 : CacheState T),
      cacheGet none st k0 now = Except.ok (r, st1) →
      k0 ∈ cacheKeys (cacheSet st1 k v ttl now2) := by
  intro r st1 heq
  obtain ⟨hg1, hms1⟩ := goodCache_cacheGetState st k0 now hg r st1 heq
  obtain ⟨hnd, hne, hlen⟩ := hg
  unfold cacheKeys at hnd hne
  have hmem0 : k0 ∈ st.entries.map Prod.fst :=
    (mapHas_iff_mem _ _).mp (mapHas_of_mapGet_some _ _ _ hget)
  have hknot : k ∉ st.entries.map Prod.fst := (mapHas_false_iff _ _).mp hnew
  have hkk0 : k ≠ k0 := fun hc => hknot (hc ▸ hmem0)
  simp only [cacheGet, hget, hexp, if_false, Except.ok.injEq, Prod.mk.injEq] at heq
  have hst1 : st1.entries = mapDelete st.entries k0 ++
      [(k0, { e with accessCount := e.accessCount + 1, lastAccessedAt := now })] := by
    rw [← heq.2]
    show mapSet (mapDelete st.entries k0) k0 _ = _
    exact mapSet_append_of_not_has _ _ _
      ((mapHas_false_iff _ _).mpr (not_mem_keys_mapDelete _ _))
  have hdlen := mapDelete_length_mem st.entries k0 hnd hmem0
  have hlen1 : st1.entries.length = st.maxSize := by
    rw [hst1, List.length_append]
    simp only [List.length_cons, List.length_nil]
    omega
  have hkeys1 : st1.entries.map Prod.fst =
      (mapDelete st.entries k0).map Prod.fst ++ [k0] := by
    rw [hst1, List.map_append]
    rfl
  have hnew1 : mapHas st1.entries k = false := by
    rw [mapHas_false_iff, hkeys1]
    intro hc
    rcases List.mem_append.mp hc with h1 | h2
    · exact hknot (mem_keys_mapDelete _ _ _ h1)
    · simp only [List.mem_singleton] at h2
      exact hkk0 h2
  have hkeys2 := keys_cacheSet st1 k v ttl now2
  rw [if_neg (by rw [hnew1]; simp)] at hkeys2
  rw [if_pos (by rw [hlen1, hms1])] at hkeys2
  cases hdel : mapDelete st.entries k0 with
  | nil =>
    have hz : (mapDelete st.entries k0).length = 0 := by rw [hdel]; rfl
    omega
  | cons q rest2 =>
    have hq_mem : q.1 ∈ st.entries.map Prod.fst := by
      refine mem_keys_mapDelete st.entries k0 q.1 ?_
      rw [hdel]
      simp
    have hqne : q.1 ≠ emptyStr := hne q.1 hq_mem
    have hst1c : st1.entries = q :: (rest2 ++
        [(k0, { e with accessCount := e.accessCount + 1, lastAccessedAt := now })]) := by
      rw [hst1, hdel]
      rfl
    have hnd1 : (st1.entries.map Prod.fst).Nodup := hg1.1
    have hev : evictLRU st1.entries = rest2 ++
        [(k0, { e with accessCount := e.accessCount + 1, lastAccessedAt := now })] := by
      rw [hst1c]
      refine evictLRU_cons _ _ ?_ hqne
      rw [← hst1c]
      exact hnd1
    rw [hev] at hkeys2
    rw [hkeys2]
    rw [List.map_append]
    refine List.mem_append.mpr (Or.inl (List.mem_append.mpr (Or.inr ?_)))
    simp

/-- C9 (amended): provided no operation uses the empty-string key (the
keys the application produces are sha256 hexes) and maxSize ≥ 1, any
sequence of set/get operations from an empty cache keeps the live entry
count at most maxSize; a set of a new key on a full well-formed cache
evicts exactly one entry, the least-recently-used (first) one; and for
maxSize ≥ 2, a get of a live key immediately before the
capacity-triggering insert promotes it so it is not the evicted entry.
As stated the original claim is false: the empty-string key defeats
evictLRU's truthiness test (see the counterexample). -/
theorem cache_lru_invariants {T : Type} :
    (∀ (maxSize ttl : Nat) (ops : List (Nat × CacheOp T)),
      1 ≤ maxSize → (∀ q ∈ ops, cacheOpKey q.2 ≠ emptyStr) →
      (runCacheOps (emptyCache T maxSize ttl) ops).entries.length ≤ maxSize) ∧
    (∀ (st : CacheState T) (k : String) (v : T) (ttl : Option Nat) (now : Nat),
      goodCache st → st.entries.length = st.maxSize → 1 ≤ st.maxSize →
      mapHas st.entries k = false →
      cacheKeys (cacheSet st k v ttl now) = (cacheKeys st).tail ++ [k]) ∧
    (∀ (st : CacheState T) (k0 k : String) (v : T) (ttl : Option Nat)
        (now now2 : Nat) (e : CacheEntry T),
      goodCache st → st.entries.length = st.maxSize → 2 ≤ st.maxSize →
      mapGet st.entries k0 = some e → ¬ e.expiresAt < now →
      mapHas st.entries k = false →
      ∀ (r : Option T) (st1 : CacheState T),
        cacheGet none st k0 now = Except.ok (r, st1) →
        k0 ∈ cacheKeys (cacheSet st1 k v ttl now2)) := by
  refine ⟨?_, ?_, ?_⟩
  · intro maxSize ttl ops h1 h2
    have hg0 : goodCache (emptyCache T maxSize ttl) :=
      ⟨List.nodup_nil, by simp [cacheKeys, emptyCache], by simp [emptyCache]⟩
    have h := goodCache_runCacheOps ops (emptyCache T maxSize ttl) hg0 h1 h2
    have hlen := h.1.2.2
    have hms := h.2
    rw [hms] at hlen
    exact hlen
  · intro st k v ttl now hg hfull hmax hnew
    exact cacheSet_evicts_lru st k v ttl now hg hfull hmax hnew
  · intro st k0 k v ttl now now2 e hg hfull hmax hget hexp hnew
    exact get_protects_from_eviction st k0 k v ttl now now2 e hg hfull hmax
      hget hexp hnew

/-- C9 witness: the three amended conjuncts at concrete data — four
operations on a size-2 cache stay within bound; inserting "c" into the
full two-entry cache evicts exactly the LRU key; and getting "a" just
before inserting "c" keeps "a" alive. -/
theorem cache_lru_invariants_witness :
    (runCacheOps (emptyCache Nat 2 1000) c9Ops).entries.length ≤ 2 ∧
    cacheKeys (cacheSet c9TwoState c9KeyC 3 none 7) =
      (cacheKeys c9TwoState).tail ++ [c9KeyC] ∧
    c9KeyA ∈ cacheKeys (cacheSet c9PromotedState c9KeyC 3 none 8) := by
  have hgood : goodCache c9TwoState := ⟨by decide, by decide, by decide⟩
  refine ⟨(@cache_lru_invariants Nat).1 2 1000 c9Ops (by decide) (by decide),
    (@cache_lru_invariants Nat).2.1 c9TwoState c9KeyC 3 none 7 hgood
      (by decide) (by decide) (by decide),
    (@cache_lru_invariants Nat).2.2 c9TwoState c9KeyA c9KeyC 3 none 5 8
      c9EntryA hgood (by decide) (by decide) (by decide) (by decide)
      (by decide) (some 1) c9PromotedState (by decide)⟩
